import Mathlib

/-!
Verification development for the lead_management repository.

The definitions below are a shallow embedding of:
* `backend/src/controllers/excelController.ts` (row validation, the
  Excel import pipeline, the import report);
* `backend/src/models/Lead.ts` (schema setters and validators, the unique
  indexes on `email` and `phone`, the pre-save lead-score hook);
* the lead controller's `createLead` / `updateLead` handlers;
* `frontend/src/pages/SmartImportLeads.tsx` (`initializeFieldMappings`).

JavaScript string builtins (`trim`, `toLowerCase`, `includes`, truthiness)
are modelled explicitly; `toLowerCase` is modelled on the ASCII range, which
covers every string the embedded code compares against.
-/

namespace LeadMgmt

/-! ### JavaScript string primitives -/

/-- One character of JS `String.prototype.toLowerCase` (ASCII model):
uppercase `A`–`Z` (code points 65–90) map 32 code points up, everything
else is unchanged. -/
def charToLower (c : Char) : Char :=
  if h : 65 ≤ c.toNat ∧ c.toNat ≤ 90 then
    Char.ofNatAux (c.toNat + 32) (Or.inl (by omega))
  else c

/-- JS `String.prototype.toLowerCase` (ASCII model). -/
def jsToLower (s : String) : String := ⟨s.data.map charToLower⟩

/-- Whitespace recognised by JS `String.prototype.trim`
(tab, LF, VT, FF, CR, space, NBSP). -/
def isJsWs (c : Char) : Bool :=
  c.toNat == 9 || c.toNat == 10 || c.toNat == 11 || c.toNat == 12 ||
  c.toNat == 13 || c.toNat == 32 || c.toNat == 160

/-- JS `String.prototype.trim` on the character list: drop whitespace from
both ends. -/
def jsTrimList (l : List Char) : List Char :=
  List.rdropWhile isJsWs (l.dropWhile isJsWs)

/-- JS `String.prototype.trim`. -/
def jsTrim (s : String) : String := ⟨jsTrimList s.data⟩

/-- JS `a.includes(b)` on character lists: `b` occurs as a contiguous
sub-sequence of `a`. -/
def listContainsSub (l sub : List Char) : Bool :=
  sub.isPrefixOf l ||
    match l with
    | [] => false
    | _ :: t => listContainsSub t sub

/-- JS `a.includes(b)`. -/
def strIncludes (s sub : String) : Bool := listContainsSub s.data sub.data

/-- JS truthiness of an optional string value (`undefined` and `""` are
falsy; the code's `typeof x === 'string'` guard is subsumed because cells
are modelled as optional strings). -/
def truthy (o : Option String) : Bool :=
  match o with
  | none => false
  | some s => !(s == "")

/-- The email normalisation both the Lead schema (`lowercase: true`,
`trim: true` setters) and the import validator (`trim().toLowerCase()`)
perform. -/
def normEmail (s : String) : String := jsToLower (jsTrim s)

/-! ### Data model: enums, rows, errors (excelController.ts / Lead.ts) -/

/-- `validSources` from excelController.ts (same list as the Lead schema's
`source` enum). -/
def validSources : List String :=
  ["Website", "Social Media", "Referral", "Import", "Manual", "Cold Call",
   "Email Campaign"]

/-- `validPriorities` from excelController.ts (same as the schema enum). -/
def validPriorities : List String := ["High", "Medium", "Low"]

/-- The Lead schema's `status` enum. -/
def validStatuses : List String :=
  ["New", "Contacted", "Interested", "Not Interested", "Follow-up",
   "Qualified", "Proposal Sent", "Negotiating", "Closed-Won", "Closed-Lost"]

/-- One parsed spreadsheet data row (`ExcelLeadRow`): the first seven cells
of the row, a missing/empty cell being `none`. -/
structure ExcelLeadRow where
  name : Option String
  email : Option String
  phone : Option String
  company : Option String
  position : Option String
  source : Option String
  priority : Option String
deriving Repr, DecidableEq

/-- A row-scoped import error `{ row, field, message }`. -/
structure ImportError where
  row : Nat
  field : String
  message : String
deriving Repr, DecidableEq

/-- The normalised lead object produced by `validateAndNormalizeLeadRow`. -/
structure NormLead where
  name : String
  email : String
  phone : String
  company : String
  position : String
  source : String
  priority : String
  status : String
deriving Repr, DecidableEq

/-- A required-field test mirroring
`!row.x || typeof row.x !== 'string' || row.x.trim().length === 0`. -/
def requiredMissing (o : Option String) : Bool :=
  !(truthy o) || (jsTrim (o.getD "") == "")

/-- Character class `[^\s@]` of the email regex. -/
def emailAtomChar (c : Char) : Bool := !(isJsWs c) && !(c == '@')

/-- JS `s.split(sep)` for a single-character separator. -/
def splitAtChar (sep : Char) : List Char → List (List Char)
  | [] => [[]]
  | c :: t =>
    match splitAtChar sep t with
    | [] => [[]]
    | h :: r => if c == sep then [] :: h :: r else (c :: h) :: r

/-- Domain part of the email regex: `[^\s@]+\.[^\s@]+` as a full match,
i.e. nonempty, no whitespace/`@`, and a dot with at least one character on
each side. -/
def emailDomainOk (b : List Char) : Bool :=
  !(b.isEmpty) && b.all emailAtomChar && ((b.drop 1).dropLast.contains '.')

/-- The email regex `^[^\s@]+@[^\s@]+\.[^\s@]+$` used both by
excelController.ts and the Lead schema's `match` validator.  A full match
forces exactly one `@` (the classes exclude `@`), a nonempty local part
without whitespace, and a domain with an interior dot. -/
def emailFormatOk (s : String) : Bool :=
  match splitAtChar '@' s.data with
  | [a, b] => !(a.isEmpty) && a.all emailAtomChar && emailDomainOk b
  | _ => false

/-- Character class `[\d\s\-\(\)\.]` of the phone regex. -/
def phoneClassChar (c : Char) : Bool :=
  c.isDigit || isJsWs c || c == '-' || c == '(' || c == ')' || c == '.'

/-- The Lead schema's phone regex `^[\+]?[\d\s\-\(\)\.]{7,25}$`. -/
def phoneFormatOk (s : String) : Bool :=
  let l := match s.data with
           | '+' :: t => t
           | t => t
  decide (7 ≤ l.length) && decide (l.length ≤ 25) && l.all phoneClassChar

/-! ### Row validation (`validateAndNormalizeLeadRow`) -/

/-- Result record of `validateAndNormalizeLeadRow`. -/
structure RowValidation where
  isValid : Bool
  lead : Option NormLead
  errors : List ImportError
deriving Repr, DecidableEq

/-- The source error message, citing the allowed values. -/
def srcErrMsg : String :=
  "Invalid source. Must be one of: " ++ String.intercalate ", " validSources

/-- The priority error message, citing the allowed values. -/
def priErrMsg : String :=
  "Invalid priority. Must be one of: " ++ String.intercalate ", " validPriorities

/-- The `source` handling of `validateAndNormalizeLeadRow`: a truthy
supplied value must, after trimming, be one of `validSources`, else an
error; otherwise the default `'Import'`. -/
def sourceResult (row : ExcelLeadRow) (rowIndex : Nat) :
    String × List ImportError :=
  if truthy row.source then
    (let ns := jsTrim (row.source.getD "")
     if validSources.contains ns then (ns, [])
     else ("Import", [⟨rowIndex, "source", srcErrMsg⟩]))
  else ("Import", [])

/-- The `priority` handling: same shape, default `'Medium'`. -/
def priorityResult (row : ExcelLeadRow) (rowIndex : Nat) :
    String × List ImportError :=
  if truthy row.priority then
    (let np := jsTrim (row.priority.getD "")
     if validPriorities.contains np then (np, [])
     else ("Medium", [⟨rowIndex, "priority", priErrMsg⟩]))
  else ("Medium", [])

/-- All errors accumulated for one row, in source push order (name, email,
phone, source, priority). -/
def rowErrors (row : ExcelLeadRow) (rowIndex : Nat) : List ImportError :=
  (if requiredMissing row.name then
    [⟨rowIndex, "name", "Name is required"⟩] else []) ++
  (if requiredMissing row.email then
    [⟨rowIndex, "email", "Email is required"⟩]
   else if !(emailFormatOk (jsTrim (row.email.getD ""))) then
    [⟨rowIndex, "email", "Invalid email format"⟩]
   else []) ++
  (if requiredMissing row.phone then
    [⟨rowIndex, "phone", "Phone is required"⟩] else []) ++
  (sourceResult row rowIndex).2 ++ (priorityResult row rowIndex).2

/-- The normalised lead object built on the success path. -/
def rowLead (row : ExcelLeadRow) (rowIndex : Nat) : NormLead :=
  { name := jsTrim (row.name.getD "")
    email := jsToLower (jsTrim (row.email.getD ""))
    phone := jsTrim (row.phone.getD "")
    company := if truthy row.company then jsTrim (row.company.getD "") else ""
    position := if truthy row.position then jsTrim (row.position.getD "") else ""
    source := (sourceResult row rowIndex).1
    priority := (priorityResult row rowIndex).1
    status := "New" }

/-- `validateAndNormalizeLeadRow(row, rowIndex)` from excelController.ts:
accumulates per-field errors; on success returns the trimmed/lowercased
lead object with `status: 'New'` and defaults `source: 'Import'`,
`priority: 'Medium'`. -/
def validateAndNormalizeLeadRow (row : ExcelLeadRow) (rowIndex : Nat) :
    RowValidation :=
  if (rowErrors row rowIndex).length > 0 then
    ⟨false, none, rowErrors row rowIndex⟩
  else ⟨true, some (rowLead row rowIndex), []⟩

/-! ### Lead store model (Lead.ts: setters, validators, unique indexes,
pre-save hook) -/

/-- A persisted Lead document (the fields the embedded handlers touch;
`notes`/timestamps are not involved in any modelled behaviour).  `id` is
the database identifier. -/
structure StoredLead where
  id : Nat
  name : String
  email : String
  phone : String
  company : String
  position : String
  source : String
  status : String
  priority : String
  assignedTo : String
  assignedBy : String
  leadScore : Nat
deriving Repr, DecidableEq

/-- The status→score table from the `pre('save')` hook. -/
def scoreMap : List (String × Nat) :=
  [("New", 20), ("Contacted", 30), ("Interested", 50), ("Not Interested", 10),
   ("Follow-up", 40), ("Qualified", 70), ("Proposal Sent", 80),
   ("Negotiating", 90), ("Closed-Won", 100), ("Closed-Lost", 0)]

/-- `scoreMap[this.status] || 50`: a missing key is `undefined` (falsy) and
a `0` entry is also falsy, so both fall back to 50. -/
def scoreOfStatus (s : String) : Nat :=
  match scoreMap.lookup s with
  | some n => if n == 0 then 50 else n
  | none => 50

/-- The `pre('save')` hook: when the status path is modified, recompute
`leadScore` from the table. -/
def applyLeadScoreHook (l : StoredLead) (statusModified : Bool) : StoredLead :=
  if statusModified then { l with leadScore := scoreOfStatus l.status } else l

/-- A save failure: a schema validation error or a unique-index violation
(Mongo error code 11000). -/
inductive SaveErr where
  | validation (msg : String)
  | dupKey (field : String) (value : String)
deriving Repr, DecidableEq

/-- `error.message` as forwarded by the import loop's catch block (the
duplicate-key text is the driver's; only its shape matters here). -/
def saveErrMsg : SaveErr → String
  | .validation m => m
  | .dupKey f v => "E11000 duplicate key error: " ++ f ++ " dup key: " ++ v

/-- The Lead schema's path validators, in schema order, on a document whose
setters have already run.  Each path contributes its first failing
validator's message. -/
def validateLeadDoc (l : StoredLead) : List String :=
  let nameErrs :=
    if l.name == "" then ["name: Name is required"]
    else if l.name.length < 2 then
      ["name: Name must be at least 2 characters long"]
    else if l.name.length > 100 then
      ["name: Name cannot exceed 100 characters"]
    else []
  let emailErrs :=
    if l.email == "" then ["email: Email is required"]
    else if !(emailFormatOk l.email) then
      ["email: Please enter a valid email address"]
    else []
  let phoneErrs :=
    if l.phone == "" then ["phone: Phone is required"]
    else if !(phoneFormatOk l.phone) then
      ["phone: Please enter a valid phone number"]
    else []
  let companyErrs :=
    if l.company.length > 100 then
      ["company: Company name cannot exceed 100 characters"]
    else []
  let positionErrs :=
    if l.position.length > 100 then
      ["position: Position cannot exceed 100 characters"]
    else []
  let sourceErrs :=
    if !(validSources.contains l.source) then
      ["source: `" ++ l.source ++ "` is not a valid enum value for path `source`."]
    else []
  let statusErrs :=
    if !(validStatuses.contains l.status) then
      ["status: `" ++ l.status ++ "` is not a valid enum value for path `status`."]
    else []
  let priorityErrs :=
    if !(validPriorities.contains l.priority) then
      ["priority: `" ++ l.priority ++
       "` is not a valid enum value for path `priority`."]
    else []
  let scoreErrs :=
    if l.leadScore > 100 then ["leadScore: leadScore above maximum"] else []
  nameErrs ++ emailErrs ++ phoneErrs ++ companyErrs ++ positionErrs ++
    sourceErrs ++ statusErrs ++ priorityErrs ++ scoreErrs

/-- A fresh database id: larger than every id in the store. -/
def freshId (store : List StoredLead) : Nat :=
  (store.map (fun s => s.id)).foldr max 0 + 1

/-- Whether some stored lead already carries this email (the unique-index
lookup). -/
def hasEmail (store : List StoredLead) (e : String) : Bool :=
  store.any (fun s => s.email == e)

/-- Whether some stored lead already carries this phone. -/
def hasPhone (store : List StoredLead) (p : String) : Bool :=
  store.any (fun s => s.phone == p)

/-- `new Lead(...).save()`: runs schema validation, then the user
`pre('save')` hook (a new document has every path modified, so the hook
fires), then the unique indexes on `email` and `phone` — the storage
layer's final arbiter — and finally appends the document.  Returns the
saved document and the new store. -/
def saveLead (store : List StoredLead) (l : StoredLead) :
    Except SaveErr (StoredLead × List StoredLead) :=
  let errs := validateLeadDoc l
  if !errs.isEmpty then
    .error (.validation ("Lead validation failed: " ++
      String.intercalate ", " errs))
  else
    let saved := applyLeadScoreHook { l with id := freshId store } true
    if hasEmail store saved.email then
      .error (.dupKey "email" saved.email)
    else if hasPhone store saved.phone then
      .error (.dupKey "phone" saved.phone)
    else .ok (saved, store ++ [saved])

/-- `lead.save()` on an existing document `id`: validation, the score hook
(firing only when the status path was modified), then the unique indexes
checked against every *other* document, then an in-place replace. -/
def saveExistingLead (store : List StoredLead) (id : Nat) (l : StoredLead)
    (statusModified : Bool) : Except SaveErr (List StoredLead) :=
  let errs := validateLeadDoc l
  if !errs.isEmpty then
    .error (.validation ("Lead validation failed: " ++
      String.intercalate ", " errs))
  else
    let saved := applyLeadScoreHook l statusModified
    if store.any (fun s => !(s.id == id) && s.email == saved.email) then
      .error (.dupKey "email" saved.email)
    else if store.any (fun s => !(s.id == id) && s.phone == saved.phone) then
      .error (.dupKey "phone" saved.phone)
    else .ok (store.map (fun s => if s.id == id then saved else s))

/-! ### The import pipeline (`importFromExcel`) -/

/-- A worksheet: its rows (the first being the header row), each a list of
cells; a missing/empty cell is `none`.  `sheet_to_json(..., {header: 1,
raw: false})` yields string cells with holes for empty cells; rows that are
entirely blank carry no name/email and are removed by the same filter the
code applies, so they need no separate treatment. -/
abbrev Sheet := List (List (Option String))

/-- `rowArray[i]`: out-of-range access is `undefined`. -/
def cellAt (cells : List (Option String)) (i : Nat) : Option String :=
  (cells.get? i).join

/-- The positional destructuring of one parsed row. -/
def rowOfCells (cells : List (Option String)) : ExcelLeadRow :=
  { name := cellAt cells 0, email := cellAt cells 1, phone := cellAt cells 2,
    company := cellAt cells 3, position := cellAt cells 4,
    source := cellAt cells 5, priority := cellAt cells 6 }

/-- `jsonData`: skip the header row, destructure, and drop rows where both
`name` and `email` are falsy (`filter(row => row.name || row.email)`). -/
def parsedRows (sheet : Sheet) : List ExcelLeadRow :=
  ((sheet.drop 1).map rowOfCells).filter
    (fun r => truthy r.name || truthy r.email)

/-- A validated lead paired with the index of the `jsonData` row it came
from (bookkeeping the code does not record; it never influences any
computed value and exists so theorems can speak about provenance). -/
abbrev GRow := Nat × NormLead

/-- The validation loop: row `i` of `jsonData` is validated with reported
row number `i + 2`; errors of invalid rows accumulate in order, valid rows
enter `validLeads` in order. -/
def validateRows (i : Nat) (rows : List ExcelLeadRow) :
    List (Nat × ImportError) × List GRow :=
  match rows with
  | [] => ([], [])
  | r :: rs =>
    let v := validateAndNormalizeLeadRow r (i + 2)
    let rest := validateRows (i + 1) rs
    if v.isValid then
      match v.lead with
      | some l => (rest.1, (i, l) :: rest.2)
      | none => (v.errors.map (fun e => (i, e)) ++ rest.1, rest.2)
    else (v.errors.map (fun e => (i, e)) ++ rest.1, rest.2)

/-- Positions paired with elements, counting from `i` (models
`forEach((x, index) => ...)`). -/
def enumF {α : Type} : Nat → List α → List (Nat × α)
  | _, [] => []
  | i, x :: xs => (i, x) :: enumF (i + 1) xs

/-- Distinct values in first-occurrence order, skipping those already
seen. -/
def dedupFirstAux (seen : List String) : List String → List String
  | [] => []
  | e :: r =>
    if seen.contains e then dedupFirstAux seen r
    else e :: dedupFirstAux (e :: seen) r

/-- The distinct values of a list in first-occurrence order — the key
iteration order of a JS `Map` built by insertion. -/
def emailsDedupFirst (l : List String) : List String := dedupFirstAux [] l

/-- All (position, source-row) pairs of validated leads with email `e`, in
position order — the index list a `Map.get(e)` returns. -/
def occPositions (gls : List GRow) (e : String) : List (Nat × Nat) :=
  ((enumF 0 gls).filter (fun pg => pg.2.2.email == e)).map
    (fun pg => (pg.1, pg.2.1))

/-- The `emailMap`: for each email in first-occurrence order, the positions
in `validLeads` holding it. -/
def emailGroups (gls : List GRow) : List (String × List (Nat × Nat)) :=
  (emailsDedupFirst (gls.map (fun g => g.2.email))).map
    (fun e => (e, occPositions gls e))

/-- The duplicate-within-file error message. -/
def dupFileMsg (e : String) : String := "Duplicate email within file: " ++ e

/-- The duplicate-marking pass: for every email with more than one
occurrence, each occurrence after the first yields an error whose reported
row is its position in `validLeads` plus 2. -/
def dupFileErrors (gls : List GRow) : List (Nat × ImportError) :=
  (emailGroups gls).flatMap (fun g =>
    if g.2.length > 1 then
      (g.2.drop 1).map (fun pq => (pq.2, ⟨pq.1 + 2, "email", dupFileMsg g.1⟩))
    else [])

/-- `uniqueValidLeads`: keep a validated lead iff its position equals the
first position recorded for its email (`emailMap.get(email)[0] ===
index`). -/
def uniqueValid (gls : List GRow) : List GRow :=
  ((enumF 0 gls).filter (fun pg =>
    ((((emailGroups gls).lookup pg.2.2.email).getD []).head?.map
      (fun q => q.1)) == some pg.1)).map (fun pg => pg.2)

/-- The duplicate-in-database error message. -/
def dbDupMsg (e : String) : String :=
  "Lead with email " ++ e ++ " already exists in database"

/-- `validLeads.findIndex(l => l.email === leadData.email)` (the code uses
this position, not the spreadsheet row, to report persistence-phase
errors). -/
def findIdxEmail (vl : List GRow) (e : String) : Nat :=
  vl.findIdx (fun g => g.2.email == e)

/-- `existingEmails`: the emails of stored leads matching
`{email: {$in: uniqueValidLeads.map(l => l.email)}}`. -/
def existingEmailList (store : List StoredLead) (uniq : List GRow) :
    List String :=
  (store.filter (fun s =>
    (uniq.map (fun g => g.2.email)).contains s.email)).map (fun s => s.email)

/-- `new Lead({...leadData, assignedBy})` before saving: schema setters on
the text paths (trim; lowercase for email), default `leadScore`, no
assignee; the database id is assigned at save time. -/
def mkStoredLead (ld : NormLead) (u : String) : StoredLead :=
  { id := 0, name := jsTrim ld.name, email := normEmail ld.email,
    phone := jsTrim ld.phone, company := jsTrim ld.company,
    position := jsTrim ld.position, source := ld.source, status := ld.status,
    priority := ld.priority, assignedTo := "", assignedBy := u,
    leadScore := 50 }

/-- The persistence loop over `uniqueValidLeads`: skip (with a
duplicate-in-database error) any lead whose email is in the pre-computed
existing set, otherwise attempt the save, converting a failure into a
row-level error.  Returns (errors, created leads, final store), each
created/errored entry tagged with its source-row index. -/
def persistLeads (vl : List GRow) (eset : List String) (u : String) :
    List GRow → List StoredLead →
      List (Nat × ImportError) × List (Nat × StoredLead) × List StoredLead
  | [], store => ([], [], store)
  | (gi, ld) :: rest, store =>
    if eset.contains ld.email then
      let r := persistLeads vl eset u rest store
      ((gi, ⟨findIdxEmail vl ld.email + 2, "email", dbDupMsg ld.email⟩) :: r.1,
       r.2.1, r.2.2)
    else
      match saveLead store (mkStoredLead ld u) with
      | .ok (saved, store') =>
        let r := persistLeads vl eset u rest store'
        (r.1, (gi, saved) :: r.2.1, r.2.2)
      | .error err =>
        let r := persistLeads vl eset u rest store
        ((gi, ⟨findIdxEmail vl ld.email + 2, "database", saveErrMsg err⟩) ::
          r.1, r.2.1, r.2.2)

/-- The instrumented result of one full import over a chosen sheet. -/
structure ImportRun where
  totalRows : Nat
  gErrors : List (Nat × ImportError)
  gCreated : List (Nat × StoredLead)
  finalStore : List StoredLead
deriving Repr, DecidableEq

/-- `validLeads` computed for a sheet (with source-row tags). -/
def validLeadsOf (sheet : Sheet) : List GRow :=
  (validateRows 0 (parsedRows sheet)).2

/-- The validation-phase errors for a sheet (with source-row tags). -/
def valErrorsOf (sheet : Sheet) : List (Nat × ImportError) :=
  (validateRows 0 (parsedRows sheet)).1

/-- `uniqueValidLeads` computed for a sheet. -/
def uniqueOf (sheet : Sheet) : List GRow := uniqueValid (validLeadsOf sheet)

/-- The `existingEmailSet` computed for a sheet against a store. -/
def esetOf (sheet : Sheet) (store : List StoredLead) : List String :=
  existingEmailList store (uniqueOf sheet)

/-- The full pipeline of `importFromExcel` on a parsed sheet: validate,
mark and drop intra-file duplicates, query existing emails, persist. -/
def runImport (sheet : Sheet) (store : List StoredLead) (u : String) :
    ImportRun :=
  let gls := validLeadsOf sheet
  let pres := persistLeads gls (esetOf sheet store) u (uniqueOf sheet) store
  { totalRows := (parsedRows sheet).length,
    gErrors := valErrorsOf sheet ++ dupFileErrors gls ++ pres.1,
    gCreated := pres.2.1,
    finalStore := pres.2.2 }

/-- The report object assembled at the end of `importFromExcel`
(`data` of the `ExcelUploadResult`). -/
structure ImportReport where
  totalRows : Nat
  successfulImports : Nat
  failedImports : Nat
  errors : List ImportError
  leads : List StoredLead
deriving Repr, DecidableEq

/-- `{totalRows, successfulImports: createdLeads.length, failedImports:
totalRows - createdLeads.length, errors, leads: createdLeads}`. -/
def importReport (sheet : Sheet) (store : List StoredLead) (u : String) :
    ImportReport :=
  let run := runImport sheet store u
  { totalRows := run.totalRows,
    successfulImports := run.gCreated.length,
    failedImports := run.totalRows - run.gCreated.length,
    errors := run.gErrors.map (fun e => e.2),
    leads := run.gCreated.map (fun c => c.2) }

/-! ### The controller around the pipeline (file-level outcomes) -/

/-- The file-level situations `importFromExcel` distinguishes before row
processing: no upload, an unparseable file, or a parsed workbook (its
sheets in order). -/
inductive UploadInput where
  | noFile
  | unreadableFile
  | workbook (sheets : List Sheet)

/-- The JSON response `{success, message, data}`. -/
structure CtlResp where
  success : Bool
  message : String
  data : ImportReport
deriving Repr, DecidableEq

/-- The zeroed `data` object of the failure responses. -/
def emptyReport : ImportReport := ⟨0, 0, 0, [], []⟩

/-- `importFromExcel`: the early returns for file-level failures, else the
pipeline on the first sheet followed by the always-`success: true`
completion response. -/
def importFromExcel (inp : UploadInput) (store : List StoredLead)
    (u : String) : CtlResp × List StoredLead :=
  match inp with
  | .noFile => (⟨false, "No file uploaded", emptyReport⟩, store)
  | .unreadableFile =>
    (⟨false, "Failed to read the uploaded file", emptyReport⟩, store)
  | .workbook sheets =>
    match sheets.head? with
    | none => (⟨false, "No worksheets found in the file", emptyReport⟩, store)
    | some sheet =>
      let run := runImport sheet store u
      let rep := importReport sheet store u
      (⟨true,
        "Import completed. " ++ toString rep.successfulImports ++
          " leads imported successfully.", rep⟩,
       run.finalStore)

/-! ### Manual create / update handlers (leadController) -/

/-- `req.body` of a manual create (the fields the handler reads; the
optional initial note does not interact with any modelled behaviour). -/
structure CreateLeadInput where
  name : Option String
  email : Option String
  phone : Option String
  company : Option String
  position : Option String
  source : Option String
  status : Option String
  priority : Option String
deriving Repr, DecidableEq

/-- A controller response (status flags and message only). -/
structure LeadCtlResp where
  success : Bool
  message : String
deriving Repr, DecidableEq

/-- `requiredFields.filter(field => !leadData[field])`. -/
def missingRequired (inp : CreateLeadInput) : List String :=
  ([("name", inp.name), ("email", inp.email),
    ("phone", inp.phone)].filter (fun p => !(truthy p.2))).map (fun p => p.1)

/-- The document built by `new Lead({...leadFields, assignedBy})`: schema
setters on the text paths, schema defaults for absent enum paths. -/
def mkDocFromCreate (inp : CreateLeadInput) (u : String) : StoredLead :=
  { id := 0,
    name := jsTrim (inp.name.getD ""),
    email := normEmail (inp.email.getD ""),
    phone := jsTrim (inp.phone.getD ""),
    company := jsTrim (inp.company.getD ""),
    position := jsTrim (inp.position.getD ""),
    source := inp.source.getD "Manual",
    status := inp.status.getD "New",
    priority := inp.priority.getD "Medium",
    assignedTo := "", assignedBy := u, leadScore := 50 }

/-- `createLead`: required-field check, duplicate email pre-check
(`findOne` on the normalised email), duplicate phone pre-check, then save;
a duplicate-key save failure is translated by `getDuplicateError` into the
duplicate response. -/
def createLead (store : List StoredLead) (inp : CreateLeadInput)
    (u : String) : LeadCtlResp × List StoredLead :=
  if !(missingRequired inp).isEmpty then
    (⟨false, "Missing required fields"⟩, store)
  else
    match store.find? (fun s =>
        s.email == jsTrim (jsToLower (inp.email.getD ""))) with
    | some _ => (⟨false, "Duplicate lead detected"⟩, store)
    | none =>
      match store.find? (fun s => s.phone == jsTrim (inp.phone.getD "")) with
      | some _ => (⟨false, "Duplicate lead detected"⟩, store)
      | none =>
        match saveLead store (mkDocFromCreate inp u) with
        | .ok (_, store') => (⟨true, "Lead created successfully"⟩, store')
        | .error (.dupKey _ _) => (⟨false, "Duplicate lead detected"⟩, store)
        | .error (.validation _) => (⟨false, "Failed to create lead"⟩, store)

/-- `req.body` of an update: exactly the `allowedFields` the handler
copies. -/
structure UpdateLeadInput where
  name : Option String
  email : Option String
  phone : Option String
  company : Option String
  position : Option String
  source : Option String
  status : Option String
  priority : Option String
deriving Repr, DecidableEq

/-- The `allowedFields.forEach` assignment loop: any field present in the
body (even an empty string) is assigned, passing through the path's
setters. -/
def applyUpdate (l : StoredLead) (upd : UpdateLeadInput) : StoredLead :=
  { l with
    name := match upd.name with | some v => jsTrim v | none => l.name
    email := match upd.email with | some v => normEmail v | none => l.email
    phone := match upd.phone with | some v => jsTrim v | none => l.phone
    company := match upd.company with | some v => jsTrim v | none => l.company
    position :=
      match upd.position with | some v => jsTrim v | none => l.position
    source := upd.source.getD l.source
    status := upd.status.getD l.status
    priority := upd.priority.getD l.priority }

/-- `updateLead`: find by id, access check, duplicate pre-checks (only for
truthy updated email/phone, excluding the lead itself), field assignment,
save (the status path counts as modified only when set to a different
value). -/
def updateLead (store : List StoredLead) (id : Nat) (upd : UpdateLeadInput)
    (u : String) (role : String) : LeadCtlResp × List StoredLead :=
  match store.find? (fun s => s.id == id) with
  | none => (⟨false, "Lead not found"⟩, store)
  | some lead =>
    if !(role == "admin") && !(lead.assignedTo == u) then
      (⟨false, "Access denied"⟩, store)
    else if (if truthy upd.email then
        (store.find? (fun s =>
          s.email == jsTrim (jsToLower (upd.email.getD "")) &&
            !(s.id == id))).isSome
      else false) then
      (⟨false, "Duplicate lead detected"⟩, store)
    else if (if truthy upd.phone then
        (store.find? (fun s =>
          s.phone == jsTrim (upd.phone.getD "") && !(s.id == id))).isSome
      else false) then
      (⟨false, "Duplicate lead detected"⟩, store)
    else
      let updated := applyUpdate lead upd
      let statusModified :=
        match upd.status with
        | some v => !(v == lead.status)
        | none => false
      match saveExistingLead store id updated statusModified with
      | .ok store' => (⟨true, "Lead updated successfully"⟩, store')
      | .error (.dupKey _ _) => (⟨false, "Duplicate lead detected"⟩, store)
      | .error (.validation _) => (⟨false, "Failed to update lead"⟩, store)

/-! ### Field mapper (SmartImportLeads.tsx, `initializeFieldMappings`) -/

/-- A lead field definition from the field catalog. -/
structure LeadFieldDef where
  name : String
  label : String
  required : Bool
  defaultValue : Option String
deriving Repr, DecidableEq

/-- One entry of the proposed mapping. -/
structure FieldMapping where
  leadField : String
  excelColumn : String
  isRequired : Bool
  defaultValue : Option String
deriving Repr, DecidableEq

/-- The header predicate of the smart matcher: exact equality of the
trimmed lowercased header with the lowercased field name or label, or
substring containment (in either direction) between the header and the
field *name* — all four alternatives tested together, in one pass. -/
def headerMatches (field : LeadFieldDef) (header : String) : Bool :=
  let headerLower := jsTrim (jsToLower header)
  let fieldLower := jsToLower field.name
  let labelLower := jsToLower field.label
  headerLower == fieldLower || headerLower == labelLower ||
    strIncludes headerLower fieldLower || strIncludes fieldLower headerLower

/-- The mapping entries contributed by one field:
`headers.find(...)` then `if (matchedHeader || field.required) push({...,
excelColumn: matchedHeader || ''})`. -/
def mapOneField (headers : List String) (field : LeadFieldDef) :
    List FieldMapping :=
  let matchedHeader := headers.find? (fun h => headerMatches field h)
  if truthy matchedHeader || field.required then
    [{ leadField := field.name, excelColumn := matchedHeader.getD "",
       isRequired := field.required, defaultValue := field.defaultValue }]
  else []

/-- `initializeFieldMappings(headers)` over the loaded field catalog. -/
def initializeFieldMappings (leadFields : List LeadFieldDef)
    (headers : List String) : List FieldMapping :=
  leadFields.flatMap (fun f => mapOneField headers f)

/-- Modelled from the spec (§4.2 rule 1), for comparison with the code: a
case-insensitive exact match of the trimmed header against the field's
internal name or display label. -/
def specC4ExactMatch (field : LeadFieldDef) (header : String) : Bool :=
  jsTrim (jsToLower header) == jsToLower field.name ||
    jsTrim (jsToLower header) == jsToLower field.label

/-! ### Concrete fixtures used by evaluation theorems and witnesses -/

/-- Header plus one data row with an invalid email (used to witness the
success flag on an all-failed import). -/
def c10Sheet : Sheet :=
  [[some "Name", some "Email", some "Phone"],
   [some "Nia", some "bad-email", some "555-0021"]]

/-- Header plus two clean rows that import fully successfully. -/
def c7WitSheet : Sheet :=
  [[some "Name", some "Email", some "Phone"],
   [some "Pam", some "pam@w.com", some "555-0031"],
   [some "Quin", some "quin@w.com", some "555-0032"]]

/-- A stored lead used by witnesses that need a pre-populated store. -/
def witLead : StoredLead :=
  ⟨1, "Ann", "ann@x.com", "555-0001", "", "", "Import", "New", "Medium", "",
   "u1", 20⟩

/-- Header plus one row whose email collides with `witLead`. -/
def c8WitSheet : Sheet :=
  [[some "Name", some "Email", some "Phone"],
   [some "Ada", some "Ann@X.com", some "555-0041"]]

/-- A catalog row used by the field-mapper witness. -/
def c4WitField : LeadFieldDef := ⟨"email", "Email", true, none⟩

/-- A row supplying an invalid source value. -/
def c9WitRow : ExcelLeadRow :=
  ⟨some "Sam Lee", some "sam@x.com", some "555-0051", none, none,
   some "Bogus", none⟩

/-- Recogniser for the duplicate-in-database error message shape (no other
error message produced by the pipeline starts this way). -/
def isDupInDbError (e : ImportError) : Bool :=
  ("Lead with email ".data).isPrefixOf e.message.data

/-- A lead about to be saved with status `Closed-Lost`. -/
def c1Lead : StoredLead :=
  ⟨7, "Ann Lee", "ann@x.com", "555-0001", "", "", "Manual", "Closed-Lost",
   "Medium", "", "u1", 90⟩

/-- Header plus three data rows: spreadsheet rows 2 (invalid email), 3 and
4 (duplicate emails). -/
def c3Sheet : Sheet :=
  [[some "Name", some "Email", some "Phone"],
   [some "Dan", some "dan", some "555-0007"],
   [some "Eve", some "e@y.com", some "555-0008"],
   [some "Fay", some "e@y.com", some "555-0009"]]

/-- Header plus one data row that has a phone but neither name nor
email. -/
def c2CexSheet : Sheet :=
  [[some "Name", some "Email", some "Phone"],
   [none, none, some "555-0001"]]

/-- The `name` field of the catalog. -/
def c4Field : LeadFieldDef := ⟨"name", "Name", true, none⟩

/-- Header, an invalid row, then two rows sharing an email. -/
def c6CexSheet : Sheet :=
  [[some "Name", some "Email", some "Phone"],
   [some "Gia", some "gia", some "555-0011"],
   [some "Hal", some "h@z.com", some "555-0012"],
   [some "Ivy", some "h@z.com", some "555-0013"]]

/-- Header plus a single row with an invalid email. -/
def c7CexSheet : Sheet :=
  [[some "Name", some "Email", some "Phone"],
   [some "Gil", some "gil", some "555-0004"]]

/-- A create request used by the uniqueness witness. -/
def c5WitInput : CreateLeadInput :=
  ⟨some "Bo", some "bo@y.com", some "555-0061", none, none, none, none, none⟩

/-- The uniqueness invariant of the Lead collection: no two stored leads
share an email, none share a phone. -/
def UniqStore (store : List StoredLead) : Prop :=
  (store.map (fun s => s.email)).Nodup ∧ (store.map (fun s => s.phone)).Nodup

/-- The ghost-tagged validated row of `c8WitSheet` (its one data row). -/
def c8WitGRow : GRow :=
  (0, ⟨"Ada", "ann@x.com", "555-0041", "", "", "Import", "Medium", "New"⟩)

/-- The second (later-occurrence) validated row of `c6CexSheet`. -/
def c6WitG : GRow :=
  (2, ⟨"Ivy", "h@z.com", "555-0013", "", "", "Import", "Medium", "New"⟩)

/-- The first occurrence of the shared email in `c6CexSheet`. -/
def c6WitX : GRow :=
  (1, ⟨"Hal", "h@z.com", "555-0012", "", "", "Import", "Medium", "New"⟩)

/-- The first parsed data row of `c7WitSheet`. -/
def c2WitRow : ExcelLeadRow :=
  ⟨some "Pam", some "pam@w.com", some "555-0031", none, none, none, none⟩

/-! ### Lemmas about the string primitives -/

theorem toNat_ofNatAux (n : Nat) (h : n.isValidChar) :
    (Char.ofNatAux n h).toNat = n := by
  simp [Char.ofNatAux, Char.toNat, UInt32.toNat, BitVec.toNat_ofNatLt]

theorem charToLower_toNat_of_upper (c : Char) (h : 65 ≤ c.toNat ∧ c.toNat ≤ 90) :
    (charToLower c).toNat = c.toNat + 32 := by
  rw [charToLower, dif_pos h, toNat_ofNatAux]

theorem charToLower_eq_self (c : Char) (h : ¬(65 ≤ c.toNat ∧ c.toNat ≤ 90)) :
    charToLower c = c := by
  rw [charToLower, dif_neg h]

theorem charToLower_idem (c : Char) :
    charToLower (charToLower c) = charToLower c := by
  by_cases h : 65 ≤ c.toNat ∧ c.toNat ≤ 90
  · have h2 := charToLower_toNat_of_upper c h
    conv_lhs => rw [charToLower]
    rw [dif_neg (by omega)]
  · rw [charToLower_eq_self c h, charToLower_eq_self c h]

theorem isJsWs_charToLower (c : Char) : isJsWs (charToLower c) = isJsWs c := by
  by_cases h : 65 ≤ c.toNat ∧ c.toNat ≤ 90
  · have h2 := charToLower_toNat_of_upper c h
    rw [Bool.eq_iff_iff]
    simp only [isJsWs, h2, Bool.or_eq_true, beq_iff_eq]
    omega
  · rw [charToLower_eq_self c h]

theorem jsToLower_idem (s : String) : jsToLower (jsToLower s) = jsToLower s := by
  simp [jsToLower, List.map_map, Function.comp_def, charToLower_idem]

/-- A prefix of a nonempty list shares its head. -/
theorem head?_of_isPrefix {α : Type} {t m : List α} (h : t <+: m) (hne : t ≠ []) :
    t.head? = m.head? := by
  obtain ⟨r, rfl⟩ := h
  cases t with
  | nil => exact absurd rfl hne
  | cons a u => rfl

theorem dropWhile_eq_self_of_head {α : Type} (p : α → Bool) (l : List α)
    (h : ∀ a, l.head? = some a → p a = false) : l.dropWhile p = l := by
  cases l with
  | nil => rfl
  | cons a u => simp [List.dropWhile_cons, h a rfl]

theorem head?_dropWhile {α : Type} (p : α → Bool) (l : List α) (a : α)
    (h : (l.dropWhile p).head? = some a) : p a = false := by
  have := List.head?_dropWhile_not p l
  rw [h] at this
  exact this

theorem jsTrimList_idem (l : List Char) :
    jsTrimList (jsTrimList l) = jsTrimList l := by
  unfold jsTrimList
  set m := l.dropWhile isJsWs with hm
  have hmfix : m.dropWhile isJsWs = m := by
    rw [hm]; exact List.dropWhile_idempotent _ _
  have hfix : (List.rdropWhile isJsWs m).dropWhile isJsWs =
      List.rdropWhile isJsWs m := by
    apply dropWhile_eq_self_of_head
    intro a ha
    have hne : List.rdropWhile isJsWs m ≠ [] := by
      intro hnil; rw [hnil] at ha; exact Option.noConfusion ha
    have hpre : List.rdropWhile isJsWs m <+: m := List.rdropWhile_prefix _ _
    rw [head?_of_isPrefix hpre hne] at ha
    rw [← hmfix] at ha
    exact head?_dropWhile _ _ _ ha
  rw [hfix, List.rdropWhile_idempotent]

theorem jsTrim_idem (s : String) : jsTrim (jsTrim s) = jsTrim s := by
  simp [jsTrim, jsTrimList_idem]

theorem dropWhile_map_charToLower (l : List Char) :
    (l.map charToLower).dropWhile isJsWs =
      (l.dropWhile isJsWs).map charToLower := by
  rw [List.dropWhile_map]
  have hp : (isJsWs ∘ charToLower) = isJsWs := funext isJsWs_charToLower
  rw [hp]

theorem rdropWhile_map_charToLower (l : List Char) :
    List.rdropWhile isJsWs (l.map charToLower) =
      (List.rdropWhile isJsWs l).map charToLower := by
  unfold List.rdropWhile
  rw [← List.map_reverse, dropWhile_map_charToLower, List.map_reverse]

theorem jsTrim_jsToLower_comm (s : String) :
    jsTrim (jsToLower s) = jsToLower (jsTrim s) := by
  simp only [jsTrim, jsToLower, jsTrimList]
  rw [dropWhile_map_charToLower, rdropWhile_map_charToLower]

theorem normEmail_idem (s : String) : normEmail (normEmail s) = normEmail s := by
  unfold normEmail
  rw [jsTrim_jsToLower_comm, jsToLower_idem]
  rw [jsTrim_idem]

/-- `email.toLowerCase().trim()` (as written in `createLead`) equals the
schema's trim-then-lowercase normalisation. -/
theorem trim_lower_eq_normEmail (s : String) :
    jsTrim (jsToLower s) = normEmail s := jsTrim_jsToLower_comm s

/-! ### Generic list lemmas -/

theorem head?_filter_eq_find? {α : Type} (f : α → Bool) (l : List α) :
    (l.filter f).head? = l.find? f := by
  induction l with
  | nil => rfl
  | cons a t ih =>
    simp only [List.filter_cons, List.find?_cons]
    split <;> simp_all

theorem mem_enumF {α : Type} (k : Nat) (l : List α) (p : Nat) (x : α) :
    (p, x) ∈ enumF k l ↔ ∃ j, p = k + j ∧ l.get? j = some x := by
  induction l generalizing k with
  | nil => simp [enumF]
  | cons a t ih =>
    simp only [enumF, List.mem_cons, ih, Prod.mk.injEq]
    constructor
    · rintro (⟨rfl, rfl⟩ | ⟨j, rfl, hj⟩)
      · exact ⟨0, by omega, rfl⟩
      · exact ⟨j + 1, by omega, by simpa using hj⟩
    · rintro ⟨j, rfl, hj⟩
      cases j with
      | zero =>
        left
        simp only [List.get?_cons_zero, Option.some.injEq] at hj
        exact ⟨by omega, hj.symm⟩
      | succ j =>
        right
        exact ⟨j, by omega, by simpa using hj⟩

theorem enumF_map_snd {α : Type} (k : Nat) (l : List α) :
    (enumF k l).map (fun p => p.2) = l := by
  induction l generalizing k with
  | nil => rfl
  | cons a t ih => simp [enumF, ih]

theorem enumF_length {α : Type} (k : Nat) (l : List α) :
    (enumF k l).length = l.length := by
  induction l generalizing k with
  | nil => rfl
  | cons a t ih => simp [enumF, ih]

theorem enumF_fst_ge {α : Type} (k : Nat) (l : List α) (p : Nat) (x : α)
    (h : (p, x) ∈ enumF k l) : k ≤ p := by
  obtain ⟨j, rfl, -⟩ := (mem_enumF k l p x).1 h
  omega

theorem enumF_fst_pairwise {α : Type} (k : Nat) (l : List α) :
    List.Pairwise (fun a b => a.1 < b.1) (enumF k l) := by
  induction l generalizing k with
  | nil => exact List.Pairwise.nil
  | cons a t ih =>
    simp only [enumF, List.pairwise_cons]
    refine ⟨?_, ih (k + 1)⟩
    intro y hy
    have hge : k + 1 ≤ y.1 := by
      have hy' : (y.1, y.2) ∈ enumF (k + 1) t := by
        rw [Prod.mk.eta]; exact hy
      exact enumF_fst_ge (k + 1) t y.1 y.2 hy'
    omega

theorem enumF_fst_nodup {α : Type} (k : Nat) (l : List α) :
    ((enumF k l).map (fun p => p.1)).Nodup := by
  have h := enumF_fst_pairwise k l
  have : List.Pairwise (fun a b : Nat => a < b)
      ((enumF k l).map (fun p => p.1)) := by
    exact (List.pairwise_map).2 h
  exact this.nodup

theorem mem_dedupFirstAux (seen l : List String) (x : String) :
    x ∈ dedupFirstAux seen l ↔ x ∈ l ∧ x ∉ seen := by
  induction l generalizing seen with
  | nil => simp [dedupFirstAux]
  | cons e r ih =>
    simp only [dedupFirstAux]
    split
    · rename_i hc
      have he : e ∈ seen := by
        simpa [List.elem_iff] using hc
      rw [ih]
      simp only [List.mem_cons]
      constructor
      · rintro ⟨hr, hs⟩
        exact ⟨Or.inr hr, hs⟩
      · rintro ⟨(rfl | hr), hs⟩
        · exact absurd he hs
        · exact ⟨hr, hs⟩
    · rename_i hc
      have he : e ∉ seen := by
        intro hmem
        exact hc (by simpa [List.elem_iff] using hmem)
      simp only [List.mem_cons, ih, List.mem_cons]
      constructor
      · rintro (rfl | ⟨hr, hs⟩)
        · exact ⟨Or.inl rfl, he⟩
        · push_neg at hs
          exact ⟨Or.inr hr, hs.2⟩
      · rintro ⟨(rfl | hr), hs⟩
        · exact Or.inl rfl
        · by_cases hxe : x = e
          · exact Or.inl hxe
          · right
            refine ⟨hr, ?_⟩
            push_neg
            exact ⟨hxe, hs⟩

theorem mem_emailsDedupFirst (l : List String) (x : String) :
    x ∈ emailsDedupFirst l ↔ x ∈ l := by
  rw [emailsDedupFirst, mem_dedupFirstAux]
  simp

theorem lookup_map_self {β : Type} (f : String → β) (es : List String)
    (e : String) (he : e ∈ es) :
    (es.map (fun x => (x, f x))).lookup e = some (f e) := by
  induction es with
  | nil => cases he
  | cons a t ih =>
    simp only [List.map_cons, List.lookup_cons]
    by_cases hea : e = a
    · subst hea
      simp
    · have hb : (e == a) = false := by simp [hea]
      rw [hb]
      exact ih (List.mem_of_ne_of_mem hea he)

/-! ### Save-layer lemmas -/

theorem hook_email (l : StoredLead) (b : Bool) :
    (applyLeadScoreHook l b).email = l.email := by
  unfold applyLeadScoreHook
  split <;> rfl

theorem hook_phone (l : StoredLead) (b : Bool) :
    (applyLeadScoreHook l b).phone = l.phone := by
  unfold applyLeadScoreHook
  split <;> rfl

theorem hasEmail_iff (store : List StoredLead) (e : String) :
    hasEmail store e = true ↔ e ∈ store.map (fun s => s.email) := by
  simp [hasEmail, List.any_eq_true]

theorem hasPhone_iff (store : List StoredLead) (p : String) :
    hasPhone store p = true ↔ p ∈ store.map (fun s => s.phone) := by
  simp [hasPhone, List.any_eq_true]

theorem saveLead_ok_parts (store : List StoredLead) (l saved : StoredLead)
    (store' : List StoredLead) (h : saveLead store l = .ok (saved, store')) :
    saved.email = l.email ∧ saved.phone = l.phone ∧
      store' = store ++ [saved] ∧ hasEmail store l.email = false ∧
      hasPhone store l.phone = false := by
  by_cases hv : (validateLeadDoc l).isEmpty
  · by_cases h1 : hasEmail store l.email
    · simp [saveLead, hv, h1, hook_email, hook_phone] at h
    · by_cases h2 : hasPhone store l.phone
      · simp [saveLead, hv, h1, h2, hook_email, hook_phone] at h
      · simp only [saveLead, hv, Bool.not_true, hook_email, hook_phone, h1,
          h2, if_false, Bool.false_eq_true, Except.ok.injEq, Prod.mk.injEq] at h
        obtain ⟨hsv, hst⟩ := h
        subst hsv
        refine ⟨hook_email _ _, hook_phone _ _, hst.symm, ?_, ?_⟩
        · simpa using h1
        · simpa using h2
  · simp [saveLead, hv] at h

theorem saveLead_error_iff (store : List StoredLead) (l : StoredLead) :
    (∃ er, saveLead store l = .error er) ↔
      ¬((validateLeadDoc l).isEmpty = true ∧ hasEmail store l.email = false ∧
        hasPhone store l.phone = false) := by
  by_cases hv : (validateLeadDoc l).isEmpty <;>
    by_cases h1 : hasEmail store l.email <;>
      by_cases h2 : hasPhone store l.phone <;>
        simp [saveLead, hv, h1, h2, hook_email, hook_phone]

/-- Save failure is monotone in the store: whatever email/phone collisions
exist in `s` also exist in `s'`, so a failing save keeps failing. -/
theorem saveLead_error_mono (s s' : List StoredLead) (l : StoredLead)
    (hm : ∀ e, hasEmail s e = true → hasEmail s' e = true)
    (hp : ∀ e, hasPhone s e = true → hasPhone s' e = true)
    (er : SaveErr) (h : saveLead s l = .error er) :
    ∃ er', saveLead s' l = .error er' := by
  rw [saveLead_error_iff]
  have h0 := (saveLead_error_iff s l).1 ⟨er, h⟩
  intro hc
  apply h0
  refine ⟨hc.1, ?_, ?_⟩
  · cases he : hasEmail s l.email
    · rfl
    · rw [hm _ he] at hc
      exact absurd hc.2.1 (by simp)
  · cases hph : hasPhone s l.phone
    · rfl
    · rw [hp _ hph] at hc
      exact absurd hc.2.2 (by simp)

theorem saveLead_preserves_uniq (store : List StoredLead) (l saved : StoredLead)
    (store' : List StoredLead) (hU : UniqStore store)
    (h : saveLead store l = .ok (saved, store')) : UniqStore store' := by
  obtain ⟨he, hp, rfl, hne, hnp⟩ := saveLead_ok_parts store l saved store' h
  constructor
  · rw [List.map_append, List.nodup_append]
    refine ⟨hU.1, by simp, ?_⟩
    intro x hx hy
    simp only [List.map_cons, List.map_nil, List.mem_singleton] at hy
    subst hy
    rw [he] at hx
    rw [← hasEmail_iff] at hx
    rw [hx] at hne
    exact Bool.noConfusion hne
  · rw [List.map_append, List.nodup_append]
    refine ⟨hU.2, by simp, ?_⟩
    intro x hx hy
    simp only [List.map_cons, List.map_nil, List.mem_singleton] at hy
    subst hy
    rw [hp] at hx
    rw [← hasPhone_iff] at hx
    rw [hx] at hnp
    exact Bool.noConfusion hnp

/-! ### Persistence-loop lemmas -/

theorem hasEmail_append_left (s t : List StoredLead) (e : String)
    (h : hasEmail s e = true) : hasEmail (s ++ t) e = true := by
  simp only [hasEmail, List.any_append, Bool.or_eq_true]
  exact Or.inl h

theorem hasPhone_append_left (s t : List StoredLead) (p : String)
    (h : hasPhone s p = true) : hasPhone (s ++ t) p = true := by
  simp only [hasPhone, List.any_append, Bool.or_eq_true]
  exact Or.inl h

theorem persistLeads_cons_skip (vl : List GRow) (eset : List String)
    (u : String) (gi : Nat) (ld : NormLead) (rest : List GRow)
    (store : List StoredLead) (hc : eset.contains ld.email = true) :
    persistLeads vl eset u ((gi, ld) :: rest) store =
      ((gi, ⟨findIdxEmail vl ld.email + 2, "email", dbDupMsg ld.email⟩) ::
        (persistLeads vl eset u rest store).1,
       (persistLeads vl eset u rest store).2.1,
       (persistLeads vl eset u rest store).2.2) := by
  simp only [persistLeads]
  rw [if_pos hc]

theorem persistLeads_cons_ok (vl : List GRow) (eset : List String)
    (u : String) (gi : Nat) (ld : NormLead) (rest : List GRow)
    (store store' : List StoredLead) (saved : StoredLead)
    (hc : eset.contains ld.email = false)
    (hs : saveLead store (mkStoredLead ld u) = .ok (saved, store')) :
    persistLeads vl eset u ((gi, ld) :: rest) store =
      ((persistLeads vl eset u rest store').1,
       (gi, saved) :: (persistLeads vl eset u rest store').2.1,
       (persistLeads vl eset u rest store').2.2) := by
  simp only [persistLeads]
  rw [if_neg (by rw [hc]; simp), hs]

theorem persistLeads_cons_err (vl : List GRow) (eset : List String)
    (u : String) (gi : Nat) (ld : NormLead) (rest : List GRow)
    (store : List StoredLead) (er : SaveErr)
    (hc : eset.contains ld.email = false)
    (hs : saveLead store (mkStoredLead ld u) = .error er) :
    persistLeads vl eset u ((gi, ld) :: rest) store =
      ((gi, ⟨findIdxEmail vl ld.email + 2, "database", saveErrMsg er⟩) ::
        (persistLeads vl eset u rest store).1,
       (persistLeads vl eset u rest store).2.1,
       (persistLeads vl eset u rest store).2.2) := by
  simp only [persistLeads]
  rw [if_neg (by rw [hc]; simp), hs]

theorem persist_final_store (vl : List GRow) (eset : List String) (u : String)
    (uniq : List GRow) (store : List StoredLead) :
    (persistLeads vl eset u uniq store).2.2 =
      store ++ ((persistLeads vl eset u uniq store).2.1).map (fun c => c.2) := by
  induction uniq generalizing store with
  | nil => simp [persistLeads]
  | cons g rest ih =>
    obtain ⟨gi, ld⟩ := g
    simp only [persistLeads]
    split
    · exact ih store
    · split
      · rename_i saved store' hsave
        rw [ih store']
        obtain ⟨-, -, hst, -, -⟩ :=
          saveLead_ok_parts store (mkStoredLead ld u) saved store' hsave
        rw [hst]
        simp
      · exact ih store

theorem persist_created_length_le (vl : List GRow) (eset : List String)
    (u : String) (uniq : List GRow) (store : List StoredLead) :
    (persistLeads vl eset u uniq store).2.1.length ≤ uniq.length := by
  induction uniq generalizing store with
  | nil => simp [persistLeads]
  | cons g rest ih =>
    obtain ⟨gi, ld⟩ := g
    simp only [persistLeads]
    split
    · exact Nat.le_succ_of_le (ih store)
    · split
      · rename_i saved store' hsave
        simpa using ih store'
      · exact Nat.le_succ_of_le (ih store)

theorem persist_outcome (vl : List GRow) (eset : List String) (u : String)
    (uniq : List GRow) (store : List StoredLead) :
    ∀ g ∈ uniq,
      (∃ e, (g.1, e) ∈ (persistLeads vl eset u uniq store).1) ∨
        ∃ d, (g.1, d) ∈ (persistLeads vl eset u uniq store).2.1 := by
  induction uniq generalizing store with
  | nil => intro g hg; cases hg
  | cons g0 rest ih =>
    obtain ⟨gi, ld⟩ := g0
    intro g hg
    simp only [persistLeads]
    rcases List.mem_cons.1 hg with rfl | hmem
    · split
      · exact Or.inl ⟨_, List.mem_cons_self _ _⟩
      · split
        · rename_i saved store' hsave
          exact Or.inr ⟨saved, List.mem_cons_self _ _⟩
        · exact Or.inl ⟨_, List.mem_cons_self _ _⟩
    · split
      · rcases ih store g hmem with ⟨e, he⟩ | ⟨d, hd⟩
        · exact Or.inl ⟨e, List.mem_cons_of_mem _ he⟩
        · exact Or.inr ⟨d, hd⟩
      · split
        · rename_i saved store' hsave
          rcases ih store' g hmem with ⟨e, he⟩ | ⟨d, hd⟩
          · exact Or.inl ⟨e, he⟩
          · exact Or.inr ⟨d, List.mem_cons_of_mem _ hd⟩
        · rcases ih store g hmem with ⟨e, he⟩ | ⟨d, hd⟩
          · exact Or.inl ⟨e, List.mem_cons_of_mem _ he⟩
          · exact Or.inr ⟨d, hd⟩

theorem persist_error_ghost_mem (vl : List GRow) (eset : List String)
    (u : String) (uniq : List GRow) (store : List StoredLead) (i : Nat)
    (e : ImportError) (h : (i, e) ∈ (persistLeads vl eset u uniq store).1) :
    i ∈ uniq.map (fun g => g.1) := by
  induction uniq generalizing store with
  | nil => simp [persistLeads] at h
  | cons g0 rest ih =>
    obtain ⟨gi, ld⟩ := g0
    simp only [persistLeads] at h
    split at h
    · rcases List.mem_cons.1 h with heq | hmem
      · injection heq with h1 h2
        subst h1
        exact List.mem_cons_self _ _
      · exact List.mem_cons_of_mem _ (ih store hmem)
    · split at h
      · exact List.mem_cons_of_mem _ (ih _ h)
      · rcases List.mem_cons.1 h with heq | hmem
        · injection heq with h1 h2
          subst h1
          exact List.mem_cons_self _ _
        · exact List.mem_cons_of_mem _ (ih store hmem)

theorem persist_created_src (vl : List GRow) (eset : List String) (u : String)
    (uniq : List GRow) (store : List StoredLead) (i : Nat) (d : StoredLead)
    (h : (i, d) ∈ (persistLeads vl eset u uniq store).2.1) :
    ∃ ld, (i, ld) ∈ uniq ∧ d.email = (mkStoredLead ld u).email ∧
      eset.contains ld.email = false := by
  induction uniq generalizing store with
  | nil => simp [persistLeads] at h
  | cons g0 rest ih =>
    obtain ⟨gi, ld0⟩ := g0
    simp only [persistLeads] at h
    by_cases hc : eset.contains ld0.email = true
    · rw [if_pos hc] at h
      obtain ⟨ld, hmem, he⟩ := ih store h
      exact ⟨ld, List.mem_cons_of_mem _ hmem, he⟩
    · rw [if_neg hc] at h
      cases hs : saveLead store (mkStoredLead ld0 u) with
      | ok p =>
        obtain ⟨saved, store'⟩ := p
        rw [hs] at h
        rcases List.mem_cons.1 h with heq | hmem
        · injection heq with h1 h2
          subst h1
          subst h2
          obtain ⟨he, -, -, -, -⟩ :=
            saveLead_ok_parts store (mkStoredLead ld0 u) d store' hs
          exact ⟨ld0, List.mem_cons_self _ _, he, by simpa using hc⟩
        · obtain ⟨ld, hmem2, he⟩ := ih store' hmem
          exact ⟨ld, List.mem_cons_of_mem _ hmem2, he⟩
      | error er =>
        rw [hs] at h
        obtain ⟨ld, hmem, he⟩ := ih store h
        exact ⟨ld, List.mem_cons_of_mem _ hmem, he⟩

theorem persist_created_ghost_mem (vl : List GRow) (eset : List String)
    (u : String) (uniq : List GRow) (store : List StoredLead) (i : Nat)
    (d : StoredLead) (h : (i, d) ∈ (persistLeads vl eset u uniq store).2.1) :
    i ∈ uniq.map (fun g => g.1) := by
  obtain ⟨ld, hmem, -⟩ := persist_created_src vl eset u uniq store i d h
  exact List.mem_map.2 ⟨(i, ld), hmem, rfl⟩

theorem persist_disjoint (vl : List GRow) (eset : List String) (u : String)
    (uniq : List GRow) (store : List StoredLead)
    (hnd : (uniq.map (fun g => g.1)).Nodup) (i : Nat) (e : ImportError)
    (d : StoredLead) (he : (i, e) ∈ (persistLeads vl eset u uniq store).1)
    (hd : (i, d) ∈ (persistLeads vl eset u uniq store).2.1) : False := by
  induction uniq generalizing store with
  | nil => simp [persistLeads] at he
  | cons g0 rest ih =>
    obtain ⟨gi, ld0⟩ := g0
    simp only [List.map_cons, List.nodup_cons] at hnd
    simp only [persistLeads] at he hd
    by_cases hc : eset.contains ld0.email = true
    · rw [if_pos hc] at he hd
      rcases List.mem_cons.1 he with heq | hmem
      · injection heq with h1 h2
        subst h1
        exact hnd.1 (persist_created_ghost_mem vl eset u rest store i d hd)
      · exact ih store hnd.2 hmem hd
    · rw [if_neg hc] at he hd
      cases hs : saveLead store (mkStoredLead ld0 u) with
      | ok p =>
        obtain ⟨saved, store'⟩ := p
        rw [hs] at he hd
        rcases List.mem_cons.1 hd with heq | hmem
        · injection heq with h1 h2
          subst h1
          exact hnd.1 (persist_error_ghost_mem vl eset u rest store' i e he)
        · exact ih store' hnd.2 he hmem
      | error er =>
        rw [hs] at he hd
        rcases List.mem_cons.1 he with heq | hmem
        · injection heq with h1 h2
          subst h1
          exact hnd.1 (persist_created_ghost_mem vl eset u rest store i d hd)
        · exact ih store hnd.2 hmem hd

theorem persist_skip_all (vl : List GRow) (eset : List String) (u : String)
    (uniq : List GRow) (store : List StoredLead)
    (h : ∀ g ∈ uniq, eset.contains g.2.email = true) :
    persistLeads vl eset u uniq store =
      (uniq.map (fun g =>
        (g.1, ⟨findIdxEmail vl g.2.email + 2, "email", dbDupMsg g.2.email⟩)),
       [], store) := by
  induction uniq generalizing store with
  | nil => simp [persistLeads]
  | cons g0 rest ih =>
    obtain ⟨gi, ld⟩ := g0
    have hc := h (gi, ld) (List.mem_cons_self _ _)
    simp only [persistLeads, hc, if_true, List.map_cons]
    rw [ih store (fun g hg => h g (List.mem_cons_of_mem _ hg))]

theorem persist_skip_mem (vl : List GRow) (eset : List String) (u : String)
    (uniq : List GRow) (store : List StoredLead) (g : GRow) (hg : g ∈ uniq)
    (hc : eset.contains g.2.email = true) :
    (g.1, (⟨findIdxEmail vl g.2.email + 2, "email", dbDupMsg g.2.email⟩ :
      ImportError)) ∈ (persistLeads vl eset u uniq store).1 := by
  induction uniq generalizing store with
  | nil => cases hg
  | cons g0 rest ih =>
    obtain ⟨gi, ld⟩ := g0
    simp only [persistLeads]
    rcases List.mem_cons.1 hg with rfl | hmem
    · rw [if_pos hc]
      exact List.mem_cons_self _ _
    · split
      · exact List.mem_cons_of_mem _ (ih store hmem)
      · split
        · exact ih _ hmem
        · exact List.mem_cons_of_mem _ (ih store hmem)

theorem persist_all_created_of_length (vl : List GRow) (eset : List String)
    (u : String) (uniq : List GRow) (store : List StoredLead)
    (h : (persistLeads vl eset u uniq store).2.1.length = uniq.length) :
    ∀ g ∈ uniq, ∃ d, (g.1, d) ∈ (persistLeads vl eset u uniq store).2.1 ∧
      d.email = (mkStoredLead g.2 u).email := by
  induction uniq generalizing store with
  | nil => intro g hg; cases hg
  | cons g0 rest ih =>
    obtain ⟨gi, ld⟩ := g0
    by_cases hc : eset.contains ld.email = true
    · rw [persistLeads_cons_skip vl eset u gi ld rest store hc] at h
      have hle := persist_created_length_le vl eset u rest store
      have h' : (persistLeads vl eset u rest store).2.1.length =
          rest.length + 1 := by simpa using h
      exact absurd h' (by omega)
    · have hc' : eset.contains ld.email = false := by simpa using hc
      cases hs : saveLead store (mkStoredLead ld u) with
      | ok p =>
        obtain ⟨saved, store'⟩ := p
        rw [persistLeads_cons_ok vl eset u gi ld rest store store' saved hc'
          hs] at h ⊢
        have h' : (persistLeads vl eset u rest store').2.1.length =
            rest.length := by simpa using h
        intro g hg
        rcases List.mem_cons.1 hg with rfl | hmem
        · exact ⟨saved, List.mem_cons_self _ _,
            (saveLead_ok_parts store (mkStoredLead ld u) saved store' hs).1⟩
        · obtain ⟨d, hd, he⟩ := ih store' h' g hmem
          exact ⟨d, List.mem_cons_of_mem _ hd, he⟩
      | error er =>
        rw [persistLeads_cons_err vl eset u gi ld rest store er hc' hs] at h
        have hle := persist_created_length_le vl eset u rest store
        have h' : (persistLeads vl eset u rest store).2.1.length =
            rest.length + 1 := by simpa using h
        exact absurd h' (by omega)

theorem persist_classify (vl : List GRow) (eset : List String) (u : String)
    (uniq : List GRow) (store : List StoredLead) :
    ∀ g ∈ uniq,
      eset.contains g.2.email = true ∨
      (∃ d ∈ (persistLeads vl eset u uniq store).2.2,
        d.email = (mkStoredLead g.2 u).email) ∨
      (∃ s', (∀ e, hasEmail s' e = true →
          hasEmail (persistLeads vl eset u uniq store).2.2 e = true) ∧
        (∀ p, hasPhone s' p = true →
          hasPhone (persistLeads vl eset u uniq store).2.2 p = true) ∧
        ∃ er, saveLead s' (mkStoredLead g.2 u) = .error er) := by
  induction uniq generalizing store with
  | nil => intro g hg; cases hg
  | cons g0 rest ih =>
    obtain ⟨gi, ld⟩ := g0
    intro g hg
    simp only [persistLeads]
    rcases List.mem_cons.1 hg with rfl | hmem
    · split
      · rename_i hc
        exact Or.inl hc
      · split
        · rename_i saved store' hsave
          refine Or.inr (Or.inl ⟨saved, ?_, ?_⟩)
          · rw [persist_final_store]
            obtain ⟨-, -, hst, -, -⟩ :=
              saveLead_ok_parts store (mkStoredLead ld u) saved store' hsave
            rw [hst]
            refine List.mem_append_left _ ?_
            exact List.mem_append_right _ (List.mem_singleton.2 rfl)
          · obtain ⟨he, -, -, -, -⟩ :=
              saveLead_ok_parts store (mkStoredLead ld u) saved store' hsave
            exact he
        · rename_i er hsave
          refine Or.inr (Or.inr ⟨store, ?_, ?_, er, hsave⟩)
          · intro e he
            rw [persist_final_store]
            exact hasEmail_append_left _ _ _ he
          · intro p hp
            rw [persist_final_store]
            exact hasPhone_append_left _ _ _ hp
    · split
      · exact ih store g hmem
      · split
        · exact ih _ g hmem
        · exact ih store g hmem

theorem persist_no_create (vl : List GRow) (eset : List String) (u : String)
    (uniq : List GRow) (store base : List StoredLead)
    (hbe : ∀ e, hasEmail base e = true → hasEmail store e = true)
    (hbp : ∀ p, hasPhone base p = true → hasPhone store p = true)
    (h : ∀ g ∈ uniq, eset.contains g.2.email = true ∨
      ∃ er, saveLead base (mkStoredLead g.2 u) = .error er) :
    (persistLeads vl eset u uniq store).2.1 = [] := by
  induction uniq generalizing store with
  | nil => simp [persistLeads]
  | cons g0 rest ih =>
    obtain ⟨gi, ld⟩ := g0
    simp only [persistLeads]
    split
    · exact ih store hbe hbp (fun g hg => h g (List.mem_cons_of_mem _ hg))
    · rename_i hnc
      rcases h (gi, ld) (List.mem_cons_self _ _) with hc | ⟨er, her⟩
      · exact absurd hc (by simpa using hnc)
      · obtain ⟨er', her'⟩ :=
          saveLead_error_mono base store (mkStoredLead ld u) hbe hbp er her
        rw [her']
        exact ih store hbe hbp (fun g hg => h g (List.mem_cons_of_mem _ hg))

/-! ### Helper lemmas about row validation -/

theorem validate_cases (r : ExcelLeadRow) (i : Nat) :
    (let v := validateAndNormalizeLeadRow r i
     (v.isValid = true ∧ v.lead.isSome ∧ v.errors = []) ∨
       (v.isValid = false ∧ v.lead = none ∧ v.errors ≠ [])) := by
  simp only [validateAndNormalizeLeadRow]
  split
  · rename_i h
    right
    refine ⟨rfl, rfl, ?_⟩
    show rowErrors r i ≠ []
    intro hnil
    rw [hnil] at h
    simp at h
  · left
    exact ⟨rfl, rfl, rfl⟩

theorem validate_lead_fields (r : ExcelLeadRow) (i : Nat) (l : NormLead)
    (h : (validateAndNormalizeLeadRow r i).lead = some l) :
    l.email = normEmail (r.email.getD "") ∧
      l.phone = jsTrim (r.phone.getD "") ∧
      l.name = jsTrim (r.name.getD "") := by
  revert h
  simp only [validateAndNormalizeLeadRow, normEmail]
  split
  · intro h
    exact absurd h (by simp)
  · intro h
    injection h with h
    subst h
    exact ⟨rfl, rfl, rfl⟩

/-- The email of a validated lead is a fixed point of the schema's email
setters, so re-normalising at save time does not change it. -/
theorem mkStoredLead_email (r : ExcelLeadRow) (i : Nat) (l : NormLead)
    (u : String) (h : (validateAndNormalizeLeadRow r i).lead = some l) :
    (mkStoredLead l u).email = l.email := by
  obtain ⟨he, -, -⟩ := validate_lead_fields r i l h
  show normEmail l.email = l.email
  rw [he, normEmail_idem]

/-- Likewise the phone of a validated lead is already trimmed. -/
theorem mkStoredLead_phone (r : ExcelLeadRow) (i : Nat) (l : NormLead)
    (u : String) (h : (validateAndNormalizeLeadRow r i).lead = some l) :
    (mkStoredLead l u).phone = l.phone := by
  obtain ⟨-, hp, -⟩ := validate_lead_fields r i l h
  show jsTrim l.phone = l.phone
  rw [hp, jsTrim_idem]

/-! ### Validation-loop lemmas -/

theorem validateRows_cons_valid (k : Nat) (r : ExcelLeadRow)
    (rs : List ExcelLeadRow) (l0 : NormLead)
    (hv : (validateAndNormalizeLeadRow r (k + 2)).isValid = true)
    (hl : (validateAndNormalizeLeadRow r (k + 2)).lead = some l0) :
    validateRows k (r :: rs) =
      ((validateRows (k + 1) rs).1, (k, l0) :: (validateRows (k + 1) rs).2) := by
  simp only [validateRows]
  rw [if_pos hv, hl]

theorem validateRows_cons_invalid (k : Nat) (r : ExcelLeadRow)
    (rs : List ExcelLeadRow)
    (hv : (validateAndNormalizeLeadRow r (k + 2)).isValid = false) :
    validateRows k (r :: rs) =
      ((validateAndNormalizeLeadRow r (k + 2)).errors.map (fun e => (k, e)) ++
        (validateRows (k + 1) rs).1, (validateRows (k + 1) rs).2) := by
  simp only [validateRows]
  rw [if_neg (by rw [hv]; simp)]

theorem validateRows_valid_mem (k : Nat) (rows : List ExcelLeadRow) (i : Nat)
    (l : NormLead) :
    (i, l) ∈ (validateRows k rows).2 ↔
      ∃ j r, rows.get? j = some r ∧ i = k + j ∧
        (validateAndNormalizeLeadRow r (i + 2)).isValid = true ∧
        (validateAndNormalizeLeadRow r (i + 2)).lead = some l := by
  induction rows generalizing k with
  | nil => simp [validateRows]
  | cons r rs ih =>
    rcases validate_cases r (k + 2) with ⟨hv, hl, -⟩ | ⟨hv, hl, -⟩
    · obtain ⟨l0, hl0⟩ := Option.isSome_iff_exists.1 hl
      rw [validateRows_cons_valid k r rs l0 hv hl0]
      simp only [List.mem_cons, Prod.mk.injEq, ih (k + 1)]
      constructor
      · rintro (⟨rfl, rfl⟩ | ⟨j, r', hj, rfl, hv', hl'⟩)
        · exact ⟨0, r, rfl, by omega, hv, hl0⟩
        · exact ⟨j + 1, r', by simpa using hj, by omega,
            hv',
            hl'⟩
      · rintro ⟨j, r', hj, rfl, hv', hl'⟩
        cases j with
        | zero =>
          left
          simp only [List.get?_cons_zero, Option.some.injEq] at hj
          subst hj
          simp only [Nat.add_zero] at hv' hl'
          rw [hl0] at hl'
          injection hl' with hl'
          exact ⟨by omega, hl'.symm⟩
        | succ j =>
          right
          refine ⟨j, r', by simpa using hj, by omega, ?_, ?_⟩
          · exact hv'
          · exact hl'
    · rw [validateRows_cons_invalid k r rs hv]
      simp only [ih (k + 1)]
      constructor
      · rintro ⟨j, r', hj, rfl, hv', hl'⟩
        exact ⟨j + 1, r', by simpa using hj, by omega,
          hv',
          hl'⟩
      · rintro ⟨j, r', hj, rfl, hv', hl'⟩
        cases j with
        | zero =>
          simp only [List.get?_cons_zero, Option.some.injEq] at hj
          subst hj
          simp only [Nat.add_zero] at hv'
          rw [hv] at hv'
          exact absurd hv' (by simp)
        | succ j =>
          refine ⟨j, r', by simpa using hj, by omega, ?_, ?_⟩
          · exact hv'
          · exact hl'

theorem validateRows_err_mem (k : Nat) (rows : List ExcelLeadRow) (i : Nat)
    (e : ImportError) :
    (i, e) ∈ (validateRows k rows).1 ↔
      ∃ j r, rows.get? j = some r ∧ i = k + j ∧
        e ∈ (validateAndNormalizeLeadRow r (i + 2)).errors := by
  induction rows generalizing k with
  | nil => simp [validateRows]
  | cons r rs ih =>
    rcases validate_cases r (k + 2) with ⟨hv, hl, herr⟩ | ⟨hv, hl, -⟩
    · obtain ⟨l0, hl0⟩ := Option.isSome_iff_exists.1 hl
      rw [validateRows_cons_valid k r rs l0 hv hl0]
      simp only [ih (k + 1)]
      constructor
      · rintro ⟨j, r', hj, rfl, he'⟩
        exact ⟨j + 1, r', by simpa using hj, by omega,
          he'⟩
      · rintro ⟨j, r', hj, rfl, he'⟩
        cases j with
        | zero =>
          simp only [List.get?_cons_zero, Option.some.injEq] at hj
          subst hj
          simp only [Nat.add_zero] at he'
          rw [herr] at he'
          cases he'
        | succ j =>
          exact ⟨j, r', by simpa using hj, by omega, he'⟩
    · rw [validateRows_cons_invalid k r rs hv]
      simp only [List.mem_append, List.mem_map, Prod.mk.injEq, ih (k + 1)]
      constructor
      · rintro (⟨e', he', rfl, rfl⟩ | ⟨j, r', hj, rfl, he'⟩)
        · exact ⟨0, r, rfl, by omega, by simpa using he'⟩
        · exact ⟨j + 1, r', by simpa using hj, by omega,
            he'⟩
      · rintro ⟨j, r', hj, rfl, he'⟩
        cases j with
        | zero =>
          left
          simp only [List.get?_cons_zero, Option.some.injEq] at hj
          subst hj
          simp only [Nat.add_zero] at he'
          exact ⟨e, he', rfl, rfl⟩
        | succ j =>
          right
          exact ⟨j, r', by simpa using hj, by omega, he'⟩

theorem validateRows_length_le (k : Nat) (rows : List ExcelLeadRow) :
    (validateRows k rows).2.length ≤ rows.length := by
  induction rows generalizing k with
  | nil => simp [validateRows]
  | cons r rs ih =>
    rcases validate_cases r (k + 2) with ⟨hv, hl, -⟩ | ⟨hv, -, -⟩
    · obtain ⟨l0, hl0⟩ := Option.isSome_iff_exists.1 hl
      rw [validateRows_cons_valid k r rs l0 hv hl0]
      simpa using ih (k + 1)
    · rw [validateRows_cons_invalid k r rs hv]
      simp only [List.length_cons]
      exact Nat.le_succ_of_le (ih (k + 1))

theorem validateRows_ghost_ge (k : Nat) (rows : List ExcelLeadRow) (i : Nat)
    (l : NormLead) (h : (i, l) ∈ (validateRows k rows).2) : k ≤ i := by
  obtain ⟨j, -, -, rfl, -⟩ := (validateRows_valid_mem k rows i l).1 h
  omega

theorem validateRows_ghost_pairwise (k : Nat) (rows : List ExcelLeadRow) :
    List.Pairwise (fun a b => a.1 < b.1) (validateRows k rows).2 := by
  induction rows generalizing k with
  | nil => simp [validateRows]
  | cons r rs ih =>
    rcases validate_cases r (k + 2) with ⟨hv, hl, -⟩ | ⟨hv, -, -⟩
    · obtain ⟨l0, hl0⟩ := Option.isSome_iff_exists.1 hl
      rw [validateRows_cons_valid k r rs l0 hv hl0]
      simp only [List.pairwise_cons]
      refine ⟨?_, ih (k + 1)⟩
      intro y hy
      have : k + 1 ≤ y.1 := by
        have hy' : (y.1, y.2) ∈ (validateRows (k + 1) rs).2 := by
          rw [Prod.mk.eta]; exact hy
        exact validateRows_ghost_ge (k + 1) rs y.1 y.2 hy'
      omega
    · rw [validateRows_cons_invalid k r rs hv]
      exact ih (k + 1)

theorem validateRows_ghost_nodup (k : Nat) (rows : List ExcelLeadRow) :
    ((validateRows k rows).2.map (fun g => g.1)).Nodup := by
  have h := validateRows_ghost_pairwise k rows
  exact ((List.pairwise_map).2 h).nodup

theorem validateRows_all_valid_of_length (k : Nat)
    (rows : List ExcelLeadRow)
    (h : (validateRows k rows).2.length = rows.length) :
    (validateRows k rows).1 = [] := by
  induction rows generalizing k with
  | nil => simp [validateRows]
  | cons r rs ih =>
    rcases validate_cases r (k + 2) with ⟨hv, hl, -⟩ | ⟨hv, -, -⟩
    · obtain ⟨l0, hl0⟩ := Option.isSome_iff_exists.1 hl
      rw [validateRows_cons_valid k r rs l0 hv hl0] at h ⊢
      simp only [List.length_cons, Nat.succ.injEq] at h
      exact ih (k + 1) h
    · rw [validateRows_cons_invalid k r rs hv] at h
      have := validateRows_length_le (k + 1) rs
      simp only [List.length_cons] at h
      omega

/-! ### Dedup-phase lemmas -/

theorem mem_enumF_snd {α : Type} (k : Nat) (l : List α) (p : Nat) (x : α)
    (h : (p, x) ∈ enumF k l) : x ∈ l := by
  obtain ⟨j, -, hj⟩ := (mem_enumF k l p x).1 h
  exact List.get?_mem hj

theorem occ_nonempty_of_mem (gls : List GRow) (e : String) (p gi : Nat)
    (h : (p, gi) ∈ occPositions gls e) :
    ∃ y, (occPositions gls e).head? = some y := by
  cases hh : (occPositions gls e).head? with
  | none =>
    rw [List.head?_eq_none_iff.1 hh] at h
    cases h
  | some y => exact ⟨y, rfl⟩

theorem mem_occPositions (gls : List GRow) (e : String) (p gi : Nat) :
    (p, gi) ∈ occPositions gls e ↔
      ∃ l, (p, (gi, l)) ∈ enumF 0 gls ∧ l.email = e := by
  simp only [occPositions, List.mem_map, List.mem_filter, beq_iff_eq,
    Prod.mk.injEq]
  constructor
  · rintro ⟨pg, ⟨hmem, he⟩, h1, h2⟩
    refine ⟨pg.2.2, ?_, he⟩
    rw [← h1, ← h2]
    exact hmem
  · rintro ⟨l, hmem, he⟩
    exact ⟨(p, (gi, l)), ⟨hmem, he⟩, rfl, rfl⟩

theorem occPositions_fst_pairwise (gls : List GRow) (e : String) :
    List.Pairwise (fun a b => a.1 < b.1) (occPositions gls e) := by
  unfold occPositions
  rw [List.pairwise_map]
  exact List.Pairwise.sublist (List.filter_sublist _)
    (enumF_fst_pairwise 0 gls)

theorem occPositions_head (gls : List GRow) (e : String) (p0 gi0 : Nat)
    (h : (occPositions gls e).head? = some (p0, gi0)) :
    (∃ l0, (p0, (gi0, l0)) ∈ enumF 0 gls ∧ l0.email = e) ∧
      ∀ q x, (q, x) ∈ enumF 0 gls → x.2.email = e → p0 ≤ q := by
  obtain ⟨ys, hys⟩ := List.head?_eq_some_iff.1 h
  constructor
  · have hm : (p0, gi0) ∈ occPositions gls e := by
      rw [hys]; exact List.mem_cons_self _ _
    exact (mem_occPositions gls e p0 gi0).1 hm
  · intro q x hq hxe
    have hqm : (q, x.1) ∈ occPositions gls e := by
      refine (mem_occPositions gls e q x.1).2 ⟨x.2, ?_, hxe⟩
      rw [Prod.mk.eta]
      exact hq
    rw [hys] at hqm
    rcases List.mem_cons.1 hqm with heq | hmem
    · injection heq with h1 h2
      omega
    · have hpw := occPositions_fst_pairwise gls e
      rw [hys, List.pairwise_cons] at hpw
      have := hpw.1 (q, x.1) hmem
      omega

theorem lookup_emailGroups (gls : List GRow) (e : String)
    (he : e ∈ gls.map (fun g => g.2.email)) :
    (emailGroups gls).lookup e = some (occPositions gls e) := by
  unfold emailGroups
  exact lookup_map_self _ _ _ ((mem_emailsDedupFirst _ _).2 he)

theorem mem_emailGroups (gls : List GRow) (x : String × List (Nat × Nat))
    (h : x ∈ emailGroups gls) :
    ∃ e, x = (e, occPositions gls e) ∧
      e ∈ gls.map (fun g => g.2.email) := by
  unfold emailGroups at h
  obtain ⟨e, he, rfl⟩ := List.mem_map.1 h
  exact ⟨e, rfl, (mem_emailsDedupFirst _ _).1 he⟩

theorem uniq_cond (gls : List GRow) (p : Nat) (g : GRow)
    (hmem : (p, g) ∈ enumF 0 gls) :
    ((((emailGroups gls).lookup g.2.email).getD []).head?.map
        (fun q => q.1) == some p) = true ↔
      (occPositions gls g.2.email).head?.map (fun q => q.1) = some p := by
  have he : g.2.email ∈ gls.map (fun g => g.2.email) :=
    List.mem_map.2 ⟨g, mem_enumF_snd _ _ _ _ hmem, rfl⟩
  rw [lookup_emailGroups gls _ he]
  simp

theorem uniq_mem_of_first (gls : List GRow) (p : Nat) (g : GRow)
    (hmem : (p, g) ∈ enumF 0 gls)
    (hfirst : ∀ q x, (q, x) ∈ enumF 0 gls → x.2.email = g.2.email → p ≤ q) :
    g ∈ uniqueValid gls := by
  have hocc : (p, g.1) ∈ occPositions gls g.2.email := by
    refine (mem_occPositions gls _ p g.1).2 ⟨g.2, ?_, rfl⟩
    rw [Prod.mk.eta]
    exact hmem
  obtain ⟨⟨p0, gi0⟩, h0⟩ := occ_nonempty_of_mem gls _ p g.1 hocc
  obtain ⟨⟨l0, hmem0, hemail0⟩, hleast⟩ := occPositions_head gls _ p0 gi0 h0
  have hp0p : p0 ≤ p := hleast p g hmem rfl
  have hpp0 : p ≤ p0 := hfirst p0 (gi0, l0) hmem0 hemail0
  have hpeq : p0 = p := by omega
  subst hpeq
  refine List.mem_map.2 ⟨(p0, g), ?_, rfl⟩
  refine List.mem_filter.2 ⟨hmem, ?_⟩
  rw [uniq_cond gls p0 g hmem, h0]
  rfl

theorem uniq_src (gls : List GRow) (g : GRow) (h : g ∈ uniqueValid gls) :
    ∃ p, (p, g) ∈ enumF 0 gls ∧
      (occPositions gls g.2.email).head?.map (fun q => q.1) = some p := by
  obtain ⟨pg, hf, hsnd⟩ := List.mem_map.1 h
  obtain ⟨hmem, hcond⟩ := List.mem_filter.1 hf
  refine ⟨pg.1, ?_, ?_⟩
  · rw [← hsnd]
    exact hmem
  · rw [← hsnd]
    exact (uniq_cond gls pg.1 pg.2 hmem).1 hcond

theorem uniq_sublist (gls : List GRow) : (uniqueValid gls).Sublist gls := by
  have h1 := List.filter_sublist (l := enumF 0 gls) (p := fun pg =>
    ((((emailGroups gls).lookup pg.2.2.email).getD []).head?.map
      (fun q => q.1)) == some pg.1)
  have h2 := h1.map (fun pg => pg.2)
  rw [enumF_map_snd] at h2
  exact h2

theorem enumF_pos_of_nodup (gls : List GRow)
    (hnd : (gls.map (fun g => g.1)).Nodup) (p p' : Nat) (g : GRow)
    (hp : (p, g) ∈ enumF 0 gls) (hp' : (p', g) ∈ enumF 0 gls) : p = p' := by
  obtain ⟨j, hpj, hj⟩ := (mem_enumF 0 gls p g).1 hp
  obtain ⟨j', hpj', hj'⟩ := (mem_enumF 0 gls p' g).1 hp'
  have hm : (gls.map (fun g => g.1)).get? j = some g.1 := by
    rw [List.get?_map, hj]
    rfl
  have hm' : (gls.map (fun g => g.1)).get? j' = some g.1 := by
    rw [List.get?_map, hj']
    rfl
  have hjl : j < gls.length := (List.get?_eq_some.1 hj).1
  have heq : j = j' := by
    refine List.get?_inj (by simpa using hjl) hnd ?_
    rw [hm, hm']
  omega

theorem uniq_not_mem_of_later (gls : List GRow)
    (hnd : (gls.map (fun g => g.1)).Nodup) (p q : Nat) (g x : GRow)
    (hp : (p, g) ∈ enumF 0 gls) (hq : (q, x) ∈ enumF 0 gls) (hlt : q < p)
    (he : x.2.email = g.2.email) : g ∉ uniqueValid gls := by
  intro hg
  obtain ⟨p', hp', hcond⟩ := uniq_src gls g hg
  have hpp : p' = p := enumF_pos_of_nodup gls hnd p' p g hp' hp
  subst hpp
  obtain ⟨⟨p0, gi0⟩, h0, hfst⟩ := Option.map_eq_some'.1 hcond
  obtain ⟨-, hleast⟩ := occPositions_head gls _ p0 gi0 h0
  have := hleast q x hq he
  simp only at hfst
  omega

theorem dupFileErrors_mem_of_later (gls : List GRow) (p q : Nat) (g x : GRow)
    (hp : (p, g) ∈ enumF 0 gls) (hq : (q, x) ∈ enumF 0 gls) (hlt : q < p)
    (he : x.2.email = g.2.email) :
    (g.1, (⟨p + 2, "email", dupFileMsg g.2.email⟩ : ImportError)) ∈
      dupFileErrors gls := by
  have hocc : (p, g.1) ∈ occPositions gls g.2.email := by
    refine (mem_occPositions gls _ p g.1).2 ⟨g.2, ?_, rfl⟩
    rw [Prod.mk.eta]
    exact hp
  obtain ⟨⟨p0, gi0⟩, h0⟩ := occ_nonempty_of_mem gls _ p g.1 hocc
  obtain ⟨-, hleast⟩ := occPositions_head gls _ p0 gi0 h0
  have hp0q : p0 ≤ q := hleast q x hq he
  obtain ⟨ys, hys⟩ := List.head?_eq_some_iff.1 h0
  have hpt : (p, g.1) ∈ ys := by
    rw [hys] at hocc
    rcases List.mem_cons.1 hocc with heq | hm
    · injection heq with h1 h2
      omega
    · exact hm
  apply List.mem_flatMap.2
  refine ⟨(g.2.email, occPositions gls g.2.email), ?_, ?_⟩
  · unfold emailGroups
    refine List.mem_map.2 ⟨g.2.email, ?_, rfl⟩
    refine (mem_emailsDedupFirst _ _).2 ?_
    exact List.mem_map.2 ⟨g, mem_enumF_snd _ _ _ _ hp, rfl⟩
  · have hlen : (occPositions gls g.2.email).length > 1 := by
      rw [hys]
      simp only [List.length_cons]
      have := List.length_pos_of_mem hpt
      omega
    rw [if_pos hlen]
    refine List.mem_map.2 ⟨(p, g.1), ?_, rfl⟩
    rw [hys, List.drop_one]
    exact hpt

theorem dupFileErrors_src (gls : List GRow) (gi : Nat) (err : ImportError)
    (h : (gi, err) ∈ dupFileErrors gls) :
    ∃ p l q y, (p, (gi, l)) ∈ enumF 0 gls ∧ (q, y) ∈ enumF 0 gls ∧ q < p ∧
      y.2.email = l.email ∧
      err = ⟨p + 2, "email", dupFileMsg l.email⟩ := by
  obtain ⟨grp, hgrp, hbr⟩ := List.mem_flatMap.1 h
  obtain ⟨e, rfl, hee⟩ := mem_emailGroups gls grp hgrp
  by_cases hlen : (occPositions gls e).length > 1
  · rw [if_pos hlen] at hbr
    obtain ⟨⟨p, gi'⟩, hmem, heq⟩ := List.mem_map.1 hbr
    injection heq with h1 h2
    have h1' : gi' = gi := h1
    rw [h1'] at hmem
    subst h2
    have hocc : (p, gi) ∈ occPositions gls e := List.mem_of_mem_drop hmem
    obtain ⟨l, hl, hle⟩ := (mem_occPositions gls e p gi).1 hocc
    obtain ⟨⟨p0, gi0⟩, h0⟩ := occ_nonempty_of_mem gls e p gi hocc
    obtain ⟨⟨l0, h0mem, h0e⟩, -⟩ := occPositions_head gls e p0 gi0 h0
    obtain ⟨ys, hys⟩ := List.head?_eq_some_iff.1 h0
    have hmem' : (p, gi) ∈ ys := by
      rw [hys, List.drop_one] at hmem
      exact hmem
    have hp0p : p0 < p := by
      have hpw := occPositions_fst_pairwise gls e
      rw [hys, List.pairwise_cons] at hpw
      exact hpw.1 (p, gi) hmem'
    subst hle
    exact ⟨p, l, p0, (gi0, l0), hl, h0mem, hp0p, h0e, rfl⟩
  · rw [if_neg hlen] at hbr
    cases hbr

theorem uniq_all_of_length (gls : List GRow)
    (h : (uniqueValid gls).length = gls.length) :
    uniqueValid gls = gls ∧ dupFileErrors gls = [] := by
  have hflen : ((enumF 0 gls).filter (fun pg =>
      ((((emailGroups gls).lookup pg.2.2.email).getD []).head?.map
        (fun q => q.1)) == some pg.1)).length = (enumF 0 gls).length := by
    have : (uniqueValid gls).length = ((enumF 0 gls).filter _).length :=
      List.length_map _ _
    rw [uniqueValid, List.length_map] at h
    rw [h, enumF_length]
  have hall := List.filter_length_eq_length.1 hflen
  have hfeq : (enumF 0 gls).filter (fun pg =>
      ((((emailGroups gls).lookup pg.2.2.email).getD []).head?.map
        (fun q => q.1)) == some pg.1) = enumF 0 gls :=
    List.filter_eq_self.2 hall
  constructor
  · rw [uniqueValid, hfeq, enumF_map_snd]
  · rw [dupFileErrors]
    rw [List.flatMap_eq_nil_iff]
    intro grp hgrp
    obtain ⟨e, rfl, hee⟩ := mem_emailGroups gls grp hgrp
    by_cases hlen : (occPositions gls e).length > 1
    · exfalso
      obtain ⟨y0, hy0⟩ : ∃ y, (occPositions gls e).head? = some y := by
        cases hh : (occPositions gls e).head? with
        | none =>
          rw [List.head?_eq_none_iff.1 hh] at hlen
          simp at hlen
        | some y => exact ⟨y, rfl⟩
      obtain ⟨ys, hys⟩ := List.head?_eq_some_iff.1 hy0
      have hys_ne : ys ≠ [] := by
        intro hnil
        rw [hys, hnil] at hlen
        simp at hlen
      obtain ⟨⟨p1, gi1⟩, hp1⟩ : ∃ y, y ∈ ys := by
        cases ys with
        | nil => exact absurd rfl hys_ne
        | cons a t => exact ⟨a, List.mem_cons_self _ _⟩
      have hocc1 : (p1, gi1) ∈ occPositions gls e := by
        rw [hys]
        exact List.mem_cons_of_mem _ hp1
      obtain ⟨l1, hl1, hle1⟩ := (mem_occPositions gls e p1 gi1).1 hocc1
      have hcond := hall (p1, (gi1, l1)) hl1
      have hcond' : (occPositions gls (gi1, l1).2.email).head?.map
          (fun q => q.1) = some p1 :=
        (uniq_cond gls p1 (gi1, l1) hl1).1 hcond
      simp only at hcond'
      rw [hle1, hy0] at hcond'
      obtain ⟨p0, gi0⟩ := y0
      simp only [Option.map_some'] at hcond'
      injection hcond' with hcond'
      have hpw := occPositions_fst_pairwise gls e
      rw [hys, List.pairwise_cons] at hpw
      have := hpw.1 (p1, gi1) hp1
      simp only at this hcond'
      omega
    · rw [if_neg hlen]

/-! ### Bridging lemmas between the pipeline stages -/

theorem mem_iff_enumF {α : Type} (l : List α) (x : α) :
    x ∈ l ↔ ∃ p, (p, x) ∈ enumF 0 l := by
  constructor
  · intro h
    obtain ⟨j, hj⟩ := List.get?_of_mem h
    exact ⟨j, (mem_enumF 0 l j x).2 ⟨j, by omega, hj⟩⟩
  · rintro ⟨p, hp⟩
    exact mem_enumF_snd 0 l p x hp

theorem gls_ghost_unique (gls : List GRow)
    (hnd : (gls.map (fun g => g.1)).Nodup) (i : Nat) (a b : NormLead)
    (ha : (i, a) ∈ gls) (hb : (i, b) ∈ gls) : a = b := by
  obtain ⟨j, hj⟩ := List.get?_of_mem ha
  obtain ⟨j', hj'⟩ := List.get?_of_mem hb
  have hm : (gls.map (fun g => g.1)).get? j = some i := by
    rw [List.get?_map, hj]
    rfl
  have hm' : (gls.map (fun g => g.1)).get? j' = some i := by
    rw [List.get?_map, hj']
    rfl
  have hjl : j < gls.length := (List.get?_eq_some.1 hj).1
  have heq : j = j' := by
    refine List.get?_inj (by simpa using hjl) hnd ?_
    rw [hm, hm']
  subst heq
  rw [hj] at hj'
  injection hj' with hj'
  injection hj' with h1 h2

theorem uniq_ghost_nodup (sheet : Sheet) :
    ((uniqueOf sheet).map (fun g => g.1)).Nodup := by
  have hs := (uniq_sublist (validLeadsOf sheet)).map (fun g => g.1)
  exact hs.nodup (validateRows_ghost_nodup 0 (parsedRows sheet))

theorem validLeadsOf_ghost_nodup (sheet : Sheet) :
    ((validLeadsOf sheet).map (fun g => g.1)).Nodup :=
  validateRows_ghost_nodup 0 (parsedRows sheet)

theorem validLeadsOf_src (sheet : Sheet) (g : GRow)
    (hg : g ∈ validLeadsOf sheet) :
    ∃ r, (parsedRows sheet).get? g.1 = some r ∧
      (validateAndNormalizeLeadRow r (g.1 + 2)).isValid = true ∧
      (validateAndNormalizeLeadRow r (g.1 + 2)).lead = some g.2 := by
  have hg' : (g.1, g.2) ∈ (validateRows 0 (parsedRows sheet)).2 := hg
  obtain ⟨j, r, hj, hij, hv, hl⟩ :=
    (validateRows_valid_mem 0 (parsedRows sheet) g.1 g.2).1 hg'
  have : j = g.1 := by omega
  subst this
  exact ⟨r, hj, hv, hl⟩

theorem mk_email_of_valid (sheet : Sheet) (g : GRow)
    (hg : g ∈ validLeadsOf sheet) (u : String) :
    (mkStoredLead g.2 u).email = g.2.email := by
  obtain ⟨r, -, -, hl⟩ := validLeadsOf_src sheet g hg
  exact mkStoredLead_email r (g.1 + 2) g.2 u hl

theorem esetOf_contains (sheet : Sheet) (store : List StoredLead) (g : GRow)
    (hg : g ∈ uniqueOf sheet) :
    (esetOf sheet store).contains g.2.email = hasEmail store g.2.email := by
  rw [Bool.eq_iff_iff]
  constructor
  · intro h
    have hmem : g.2.email ∈ existingEmailList store (uniqueOf sheet) := by
      simpa [List.elem_iff] using h
    simp only [existingEmailList, List.mem_map, List.mem_filter] at hmem
    obtain ⟨s, ⟨hs, -⟩, he⟩ := hmem
    rw [hasEmail_iff]
    exact List.mem_map.2 ⟨s, hs, he⟩
  · intro h
    obtain ⟨s, hs, he⟩ := List.mem_map.1 ((hasEmail_iff store _).1 h)
    have hmem : g.2.email ∈ existingEmailList store (uniqueOf sheet) := by
      simp only [existingEmailList, List.mem_map, List.mem_filter]
      refine ⟨s, ⟨hs, ?_⟩, he⟩
      have : s.email ∈ (uniqueOf sheet).map (fun g => g.2.email) := by
        rw [he]
        exact List.mem_map.2 ⟨g, hg, rfl⟩
      simpa [List.elem_iff] using this
    simpa [List.elem_iff] using hmem

theorem isDupInDb_of_msg (r : Nat) (f em : String) :
    isDupInDbError ⟨r, f, dbDupMsg em⟩ = true := by
  have hdata : (dbDupMsg em).data =
      "Lead with email ".data ++
        (em.data ++ " already exists in database".data) := by
    simp [dbDupMsg, String.data_append]
  show ("Lead with email ".data).isPrefixOf (dbDupMsg em).data = true
  rw [hdata]
  exact (List.isPrefixOf_iff_prefix).2 (List.prefix_append _ _)

/-! ### Claim C1 (status → leadScore table) -/

/-- C1 (code bug): the pre-save hook does recompute `leadScore` from the
status table whenever the status path is modified, and the table behaves
as claimed for the nine statuses with non-zero scores — but
`scoreMap[this.status] || 50` treats the table value `0` of `Closed-Lost`
as falsy, so saving a lead whose status was set to `Closed-Lost` yields
`leadScore = 50`, not the claimed (and intended, per the code's own table)
`0`. -/
theorem c1_closed_lost_hook_bug :
    (∀ l : StoredLead,
      (applyLeadScoreHook l true).leadScore = scoreOfStatus l.status) ∧
    scoreOfStatus "New" = 20 ∧ scoreOfStatus "Contacted" = 30 ∧
    scoreOfStatus "Interested" = 50 ∧ scoreOfStatus "Not Interested" = 10 ∧
    scoreOfStatus "Follow-up" = 40 ∧ scoreOfStatus "Qualified" = 70 ∧
    scoreOfStatus "Proposal Sent" = 80 ∧ scoreOfStatus "Negotiating" = 90 ∧
    scoreOfStatus "Closed-Won" = 100 ∧
    scoreOfStatus "Closed-Lost" = 50 ∧
    (applyLeadScoreHook c1Lead true).leadScore = 50 ∧ (50 : Nat) ≠ 0 := by
  refine ⟨fun l => rfl, ?_⟩
  repeat constructor
  all_goals decide

/-! ### Claim C3 (reported row numbers) -/

/-- C3 (code bug): the duplicate-within-file error for the third data row
(source index 2, spreadsheet row 4) is reported with row number 3, because
after the invalid row 2 is dropped the code numbers errors by position in
`validLeads` (`index + 2`), not by spreadsheet row. -/
theorem c3_row_number_bug :
    (runImport c3Sheet [] "u1").gErrors =
      [(0, ⟨2, "email", "Invalid email format"⟩),
       (2, ⟨3, "email", "Duplicate email within file: e@y.com"⟩)] ∧
    (2 + 2 : Nat) ≠ 3 := by
  constructor
  · rfl
  · decide

/-! ### Claim C2 counterexample (totalRows vs non-empty rows) -/

/-- C2 counterexample: the lone data row is not empty (its phone cell is a
non-empty string), yet `totalRows = 0`: the "empty row" filter keeps only
rows with a truthy name or email. -/
theorem c2_counterexample :
    (importReport c2CexSheet [] "u1").totalRows = 0 ∧
    c2CexSheet.drop 1 = [[none, none, some "555-0001"]] ∧
    truthy (cellAt [none, none, some "555-0001"] 2) = true := by
  refine ⟨?_, rfl, rfl⟩
  rfl

/-! ### Claim C4 counterexample (no exact-match priority) -/

/-- C4 counterexample: with headers `["company name", "name"]`, the header
`"name"` is a case-insensitive exact match for the field, and
`"company name"` is not — yet the mapper assigns `"company name"`, because
its single pass gives substring containment the same priority as exact
matching and the leftmost header wins. -/
theorem c4_counterexample :
    initializeFieldMappings [c4Field] ["company name", "name"] =
      [⟨"name", "company name", true, none⟩] ∧
    specC4ExactMatch c4Field "name" = true ∧
    specC4ExactMatch c4Field "company name" = false := by
  refine ⟨?_, rfl, ?_⟩
  · rfl
  · rfl

/-! ### Claim C6 counterexample (duplicate row number) -/

/-- C6 counterexample: the subsequent occurrence of `h@z.com` is the third
data row (source index 2, spreadsheet row 4), but its
duplicate-within-file error carries row number 3 — its position among the
validated rows plus 2 — so the error does not carry *its* row number. -/
theorem c6_counterexample :
    (runImport c6CexSheet [] "u1").gErrors =
      [(0, ⟨2, "email", "Invalid email format"⟩),
       (2, ⟨3, "email", dupFileMsg "h@z.com"⟩)] ∧
    (2 + 2 : Nat) ≠ 3 := by
  constructor
  · rfl
  · decide

/-! ### Claim C7 counterexample (re-import after a partial first import) -/

/-- C7 counterexample: the first import of this file completes (with zero
created leads), and re-importing it yields the same single
invalid-email validation error — not a duplicate-in-database error per
row. -/
theorem c7_counterexample :
    (importReport c7CexSheet [] "u1").totalRows = 1 ∧
    (importReport c7CexSheet (runImport c7CexSheet [] "u1").finalStore
        "u1").errors = [⟨2, "email", "Invalid email format"⟩] ∧
    isDupInDbError ⟨2, "email", "Invalid email format"⟩ = false := by
  refine ⟨?_, ?_, ?_⟩ <;> rfl

/-! ### Claim C9 (source/priority enum validation) -/

theorem validate_errors_eq (row : ExcelLeadRow) (i : Nat) :
    (validateAndNormalizeLeadRow row i).errors = rowErrors row i := by
  unfold validateAndNormalizeLeadRow
  split
  · rfl
  · rename_i h
    have hnil : rowErrors row i = [] := by
      cases hh : rowErrors row i with
      | nil => rfl
      | cons a t => exact absurd (by rw [hh]; simp) h
    rw [hnil]

theorem validate_lead_sp (row : ExcelLeadRow) (i : Nat) (l : NormLead)
    (h : (validateAndNormalizeLeadRow row i).lead = some l) :
    l.source = (sourceResult row i).1 ∧
      l.priority = (priorityResult row i).1 := by
  revert h
  simp only [validateAndNormalizeLeadRow]
  split
  · intro h
    exact absurd h (by simp)
  · intro h
    injection h with h
    subst h
    exact ⟨rfl, rfl⟩

theorem sourceResult_of_valid (row : ExcelLeadRow) (i : Nat)
    (ht : truthy row.source = true)
    (hc : validSources.contains (jsTrim (row.source.getD "")) = true) :
    sourceResult row i = (jsTrim (row.source.getD ""), []) := by
  simp only [sourceResult, ht, if_true, hc]
  try simp

theorem sourceResult_of_invalid (row : ExcelLeadRow) (i : Nat)
    (ht : truthy row.source = true)
    (hc : validSources.contains (jsTrim (row.source.getD "")) = false) :
    sourceResult row i = ("Import", [⟨i, "source", srcErrMsg⟩]) := by
  simp only [sourceResult, ht, if_true, hc]
  try simp

theorem sourceResult_of_missing (row : ExcelLeadRow) (i : Nat)
    (ht : truthy row.source = false) :
    sourceResult row i = ("Import", []) := by
  simp [sourceResult, ht]

theorem priorityResult_of_valid (row : ExcelLeadRow) (i : Nat)
    (ht : truthy row.priority = true)
    (hc : validPriorities.contains (jsTrim (row.priority.getD "")) = true) :
    priorityResult row i = (jsTrim (row.priority.getD ""), []) := by
  simp only [priorityResult, ht, if_true, hc]
  try simp

theorem priorityResult_of_invalid (row : ExcelLeadRow) (i : Nat)
    (ht : truthy row.priority = true)
    (hc : validPriorities.contains (jsTrim (row.priority.getD "")) = false) :
    priorityResult row i = ("Medium", [⟨i, "priority", priErrMsg⟩]) := by
  simp only [priorityResult, ht, if_true, hc]
  try simp

theorem priorityResult_of_missing (row : ExcelLeadRow) (i : Nat)
    (ht : truthy row.priority = false) :
    priorityResult row i = ("Medium", []) := by
  simp [priorityResult, ht]

theorem sourceResult_snd_cases (row : ExcelLeadRow) (i : Nat) :
    (sourceResult row i).2 = [] ∨
      (sourceResult row i).2 = [⟨i, "source", srcErrMsg⟩] := by
  by_cases ht : truthy row.source = true
  · by_cases hc : validSources.contains (jsTrim (row.source.getD "")) = true
    · rw [sourceResult_of_valid row i ht hc]
      exact Or.inl rfl
    · rw [sourceResult_of_invalid row i ht (by simpa using hc)]
      exact Or.inr rfl
  · rw [sourceResult_of_missing row i (by simpa using ht)]
    exact Or.inl rfl

theorem priorityResult_snd_cases (row : ExcelLeadRow) (i : Nat) :
    (priorityResult row i).2 = [] ∨
      (priorityResult row i).2 = [⟨i, "priority", priErrMsg⟩] := by
  by_cases ht : truthy row.priority = true
  · by_cases hc : validPriorities.contains (jsTrim (row.priority.getD "")) =
      true
    · rw [priorityResult_of_valid row i ht hc]
      exact Or.inl rfl
    · rw [priorityResult_of_invalid row i ht (by simpa using hc)]
      exact Or.inr rfl
  · rw [priorityResult_of_missing row i (by simpa using ht)]
    exact Or.inl rfl

theorem rowErrors_source_only (row : ExcelLeadRow) (i : Nat)
    (e : ImportError) (he : e ∈ rowErrors row i)
    (hf : e.field = "source") : e ∈ (sourceResult row i).2 := by
  unfold rowErrors at he
  rcases List.mem_append.1 he with h | hpri
  · rcases List.mem_append.1 h with h | hsrc
    · rcases List.mem_append.1 h with h | hphone
      · rcases List.mem_append.1 h with hname | hemail
        · revert hname
          split
          · intro h2
            rw [List.mem_singleton] at h2
            subst h2
            simp at hf
          · intro h2
            cases h2
        · revert hemail
          split
          · intro h2
            rw [List.mem_singleton] at h2
            subst h2
            simp at hf
          · split
            · intro h2
              rw [List.mem_singleton] at h2
              subst h2
              simp at hf
            · intro h2
              cases h2
      · revert hphone
        split
        · intro h2
          rw [List.mem_singleton] at h2
          subst h2
          simp at hf
        · intro h2
          cases h2
    · exact hsrc
  · rcases priorityResult_snd_cases row i with hp | hp
    · rw [hp] at hpri
      cases hpri
    · rw [hp] at hpri
      rw [List.mem_singleton] at hpri
      subst hpri
      simp at hf

theorem rowErrors_priority_only (row : ExcelLeadRow) (i : Nat)
    (e : ImportError) (he : e ∈ rowErrors row i)
    (hf : e.field = "priority") : e ∈ (priorityResult row i).2 := by
  unfold rowErrors at he
  rcases List.mem_append.1 he with h | hpri
  · rcases List.mem_append.1 h with h | hsrc
    · rcases List.mem_append.1 h with h | hphone
      · rcases List.mem_append.1 h with hname | hemail
        · revert hname
          split
          · intro h2
            rw [List.mem_singleton] at h2
            subst h2
            simp at hf
          · intro h2
            cases h2
        · revert hemail
          split
          · intro h2
            rw [List.mem_singleton] at h2
            subst h2
            simp at hf
          · split
            · intro h2
              rw [List.mem_singleton] at h2
              subst h2
              simp at hf
            · intro h2
              cases h2
      · revert hphone
        split
        · intro h2
          rw [List.mem_singleton] at h2
          subst h2
          simp at hf
        · intro h2
          cases h2
    · rcases sourceResult_snd_cases row i with hp | hp
      · rw [hp] at hsrc
        cases hsrc
      · rw [hp] at hsrc
        rw [List.mem_singleton] at hsrc
        subst hsrc
        simp at hf
  · exact hpri

theorem sourceErr_mem_rowErrors (row : ExcelLeadRow) (i : Nat)
    (e : ImportError) (h : e ∈ (sourceResult row i).2) :
    e ∈ rowErrors row i := by
  unfold rowErrors
  exact List.mem_append_left _ (List.mem_append_right _ h)

theorem priorityErr_mem_rowErrors (row : ExcelLeadRow) (i : Nat)
    (e : ImportError) (h : e ∈ (priorityResult row i).2) :
    e ∈ rowErrors row i := by
  unfold rowErrors
  exact List.mem_append_right _ h

theorem validate_lead_none_of_err (row : ExcelLeadRow) (i : Nat)
    (e : ImportError) (h : e ∈ (validateAndNormalizeLeadRow row i).errors) :
    (validateAndNormalizeLeadRow row i).lead = none := by
  rcases validate_cases row i with ⟨-, -, he⟩ | ⟨-, hl, -⟩
  · rw [he] at h
    cases h
  · exact hl

/-- C9: for a supplied (truthy) `source`/`priority` value, the trimmed
value must case-sensitively be one of the fixed enum values — otherwise
the row gets an error on that field citing the allowed values and no
normalised lead; for an absent (or empty) value the schema default
(`Import`/`Medium`) is used and no error on that field is produced. -/
theorem c9_source_priority_rules :
    ∀ (row : ExcelLeadRow) (i : Nat),
      (truthy row.source = true →
        validSources.contains (jsTrim (row.source.getD "")) = true →
          (∀ e ∈ (validateAndNormalizeLeadRow row i).errors,
            e.field ≠ "source") ∧
          ∀ l, (validateAndNormalizeLeadRow row i).lead = some l →
            l.source = jsTrim (row.source.getD "")) ∧
      (truthy row.source = true →
        validSources.contains (jsTrim (row.source.getD "")) = false →
          (⟨i, "source", srcErrMsg⟩ : ImportError) ∈
            (validateAndNormalizeLeadRow row i).errors ∧
          (validateAndNormalizeLeadRow row i).lead = none) ∧
      (truthy row.source = false →
        (∀ e ∈ (validateAndNormalizeLeadRow row i).errors,
          e.field ≠ "source") ∧
        ∀ l, (validateAndNormalizeLeadRow row i).lead = some l →
          l.source = "Import") ∧
      (truthy row.priority = true →
        validPriorities.contains (jsTrim (row.priority.getD "")) = true →
          (∀ e ∈ (validateAndNormalizeLeadRow row i).errors,
            e.field ≠ "priority") ∧
          ∀ l, (validateAndNormalizeLeadRow row i).lead = some l →
            l.priority = jsTrim (row.priority.getD "")) ∧
      (truthy row.priority = true →
        validPriorities.contains (jsTrim (row.priority.getD "")) = false →
          (⟨i, "priority", priErrMsg⟩ : ImportError) ∈
            (validateAndNormalizeLeadRow row i).errors ∧
          (validateAndNormalizeLeadRow row i).lead = none) ∧
      (truthy row.priority = false →
        (∀ e ∈ (validateAndNormalizeLeadRow row i).errors,
          e.field ≠ "priority") ∧
        ∀ l, (validateAndNormalizeLeadRow row i).lead = some l →
          l.priority = "Medium") ∧
      srcErrMsg = "Invalid source. Must be one of: Website, Social Media, " ++
        "Referral, Import, Manual, Cold Call, Email Campaign" ∧
      priErrMsg = "Invalid priority. Must be one of: High, Medium, Low" := by
  intro row i
  refine ⟨?_, ?_, ?_, ?_, ?_, ?_, ?_, ?_⟩
  · intro ht hc
    constructor
    · intro e he hf
      rw [validate_errors_eq] at he
      have hm := rowErrors_source_only row i e he hf
      rw [sourceResult_of_valid row i ht hc] at hm
      cases hm
    · intro l hl
      rw [(validate_lead_sp row i l hl).1, sourceResult_of_valid row i ht hc]
  · intro ht hc
    have hm : (⟨i, "source", srcErrMsg⟩ : ImportError) ∈
        (sourceResult row i).2 := by
      rw [sourceResult_of_invalid row i ht hc]
      exact List.mem_singleton.2 rfl
    have hm' := sourceErr_mem_rowErrors row i _ hm
    rw [← validate_errors_eq] at hm'
    exact ⟨hm', validate_lead_none_of_err row i _ hm'⟩
  · intro ht
    constructor
    · intro e he hf
      rw [validate_errors_eq] at he
      have hm := rowErrors_source_only row i e he hf
      rw [sourceResult_of_missing row i ht] at hm
      cases hm
    · intro l hl
      rw [(validate_lead_sp row i l hl).1, sourceResult_of_missing row i ht]
  · intro ht hc
    constructor
    · intro e he hf
      rw [validate_errors_eq] at he
      have hm := rowErrors_priority_only row i e he hf
      rw [priorityResult_of_valid row i ht hc] at hm
      cases hm
    · intro l hl
      rw [(validate_lead_sp row i l hl).2,
        priorityResult_of_valid row i ht hc]
  · intro ht hc
    have hm : (⟨i, "priority", priErrMsg⟩ : ImportError) ∈
        (priorityResult row i).2 := by
      rw [priorityResult_of_invalid row i ht hc]
      exact List.mem_singleton.2 rfl
    have hm' := priorityErr_mem_rowErrors row i _ hm
    rw [← validate_errors_eq] at hm'
    exact ⟨hm', validate_lead_none_of_err row i _ hm'⟩
  · intro ht
    constructor
    · intro e he hf
      rw [validate_errors_eq] at he
      have hm := rowErrors_priority_only row i e he hf
      rw [priorityResult_of_missing row i ht] at hm
      cases hm
    · intro l hl
      rw [(validate_lead_sp row i l hl).2, priorityResult_of_missing row i ht]
  · rfl
  · rfl

/-- Witness for C9 at a concrete row with `source = "Bogus"`. -/
theorem c9_source_priority_rules_witness :
    truthy c9WitRow.source = true ∧
    validSources.contains (jsTrim (c9WitRow.source.getD "")) = false ∧
    (⟨2, "source", srcErrMsg⟩ : ImportError) ∈
      (validateAndNormalizeLeadRow c9WitRow 2).errors ∧
    (validateAndNormalizeLeadRow c9WitRow 2).lead = none := by
  refine ⟨by decide, by decide, ?_⟩
  exact (c9_source_priority_rules c9WitRow 2).2.1 (by decide) (by decide)

/-! ### Claim C10 (success flag semantics) -/

/-- C10: whenever the pipeline runs to completion (a parsed workbook with
at least one sheet), the response carries `success: true` together with
the imported-count message and the full report — even when every row
failed; `success: false` arises only from the file-level failure paths. -/
theorem c10_success_flag :
    ∀ (inp : UploadInput) (store : List StoredLead) (u : String),
      ((importFromExcel inp store u).1.success = true ↔
        ∃ sheets sheet, inp = UploadInput.workbook sheets ∧
          sheets.head? = some sheet) ∧
      ∀ sheets sheet, inp = UploadInput.workbook sheets →
        sheets.head? = some sheet →
        (importFromExcel inp store u).1.message =
          "Import completed. " ++
            toString (importReport sheet store u).successfulImports ++
            " leads imported successfully." ∧
        (importFromExcel inp store u).1.data = importReport sheet store u := by
  intro inp store u
  cases inp with
  | noFile =>
    refine ⟨⟨fun h => ?_, fun h => ?_⟩, fun sheets sheet h => ?_⟩
    · simp [importFromExcel] at h
    · obtain ⟨sheets, sheet, h, -⟩ := h
      cases h
    · cases h
  | unreadableFile =>
    refine ⟨⟨fun h => ?_, fun h => ?_⟩, fun sheets sheet h => ?_⟩
    · simp [importFromExcel] at h
    · obtain ⟨sheets, sheet, h, -⟩ := h
      cases h
    · cases h
  | workbook sheets =>
    cases hh : sheets.head? with
    | none =>
      refine ⟨⟨fun h => ?_, fun h => ?_⟩, fun sheets' sheet h hh' => ?_⟩
      · exfalso
        simp [importFromExcel, hh] at h
      · obtain ⟨sheets', sheet, heq, hh'⟩ := h
        injection heq with heq
        subst heq
        rw [hh] at hh'
        cases hh'
      · injection h with heq
        subst heq
        rw [hh] at hh'
        cases hh'
    | some sheet0 =>
      refine ⟨⟨fun h => ⟨sheets, sheet0, rfl, hh⟩, fun h => ?_⟩,
        fun sheets' sheet h hh' => ?_⟩
      · simp [importFromExcel, hh]
      · injection h with heq
        subst heq
        rw [hh] at hh'
        injection hh' with hh'
        subst hh'
        constructor
        · simp [importFromExcel, hh]
        · simp [importFromExcel, hh]

/-- Witness for C10: an import whose only row fails still responds with
`success: true`, with every row counted as failed. -/
theorem c10_success_flag_witness :
    (importFromExcel (UploadInput.workbook [c10Sheet]) [] "u1").1.success =
      true ∧
    (importReport c10Sheet [] "u1").successfulImports = 0 ∧
    (importReport c10Sheet [] "u1").failedImports =
      (importReport c10Sheet [] "u1").totalRows := by
  refine ⟨?_, by rfl, by rfl⟩
  exact ((c10_success_flag (UploadInput.workbook [c10Sheet]) [] "u1").1).2
    ⟨[c10Sheet], c10Sheet, rfl, rfl⟩

/-! ### Claim C4 (field mapper: leftmost match, no rule priority) -/

/-- C4 (amended): the mapper's single pass assigns each field the leftmost
header satisfying ANY of its four alternatives (trimmed case-insensitive
equality with the internal name or the label, or case-insensitive
containment between the header and the internal name, in either
direction) — exact equality gets no priority over containment; the field
enters the mapping with that header when it is non-empty, and otherwise
only if required, with an empty column. -/
theorem c4_leftmost_any_match :
    ∀ (fields : List LeadFieldDef) (headers : List String),
      initializeFieldMappings fields headers =
        fields.flatMap (fun f => mapOneField headers f) ∧
      ∀ f : LeadFieldDef,
        (∀ h, headers.find? (headerMatches f) = some h →
          headerMatches f h = true ∧
          ∃ pre post, headers = pre ++ h :: post ∧
            ∀ h' ∈ pre, headerMatches f h' = false) ∧
        (∀ h, headers.find? (headerMatches f) = some h → (h == "") = false →
          mapOneField headers f =
            [⟨f.name, h, f.required, f.defaultValue⟩]) ∧
        (∀ h, headers.find? (headerMatches f) = some h → (h == "") = true →
          mapOneField headers f =
            (if f.required then [⟨f.name, "", f.required, f.defaultValue⟩]
             else [])) ∧
        (headers.find? (headerMatches f) = none →
          mapOneField headers f =
            (if f.required then [⟨f.name, "", f.required, f.defaultValue⟩]
             else [])) := by
  intro fields headers
  refine ⟨rfl, fun f => ⟨?_, ?_, ?_, ?_⟩⟩
  · intro h hfind
    obtain ⟨hp, pre, post, heq, hall⟩ := List.find?_eq_some.1 hfind
    refine ⟨hp, pre, post, heq, fun h' hh' => ?_⟩
    have := hall h' hh'
    simpa using this
  · intro h hfind hne
    have ht : truthy (some h) = true := by
      simp [truthy, hne]
    simp [mapOneField, hfind, ht]
  · intro h hfind he
    have hh : h = "" := by simpa using he
    subst hh
    have ht : truthy (some "") = false := by simp [truthy]
    simp [mapOneField, hfind, ht]
  · intro hfind
    simp [mapOneField, hfind, truthy]

/-- Witness for C4 at a concrete catalog and header list. -/
theorem c4_leftmost_any_match_witness :
    mapOneField ["Email Address"] c4WitField =
      [⟨"email", "Email Address", true, none⟩] ∧
    initializeFieldMappings [c4WitField] ["Email Address"] =
      [c4WitField].flatMap (fun f => mapOneField ["Email Address"] f) := by
  constructor
  · exact (((c4_leftmost_any_match [c4WitField] ["Email Address"]).2
      c4WitField).2.1) "Email Address" (by rfl) (by rfl)
  · exact (c4_leftmost_any_match [c4WitField] ["Email Address"]).1

/-! ### Claim C5 (uniqueness invariant of the Lead collection) -/

theorem replace_proj_nodup (id : Nat) (saved : StoredLead)
    (fn : StoredLead → String) (store : List StoredLead)
    (hU : (store.map fn).Nodup) (hid : (store.map (fun s => s.id)).Nodup)
    (hc : ∀ s ∈ store, s.id ≠ id → fn s ≠ fn saved) :
    ((store.map (fun s => if s.id == id then saved else s)).map fn).Nodup := by
  induction store with
  | nil => simp
  | cons a rest ih =>
    simp only [List.map_cons, List.nodup_cons] at hU hid ⊢
    by_cases ha : a.id == id
    · rw [if_pos ha]
      have haid : a.id = id := by simpa using ha
      have hrest : ∀ s ∈ rest, (if s.id == id then saved else s) = s := by
        intro s hs
        rw [if_neg]
        intro hsid
        have : s.id = id := by simpa using hsid
        exact hid.1 (List.mem_map.2 ⟨s, hs, by rw [this, ← haid]⟩)
      have hmapeq : rest.map (fun s => if s.id == id then saved else s) = rest := by
        rw [List.map_congr_left hrest]
        simp
      rw [hmapeq]
      refine ⟨?_, hU.2⟩
      intro hmem
      obtain ⟨s, hs, he⟩ := List.mem_map.1 hmem
      have hsid : s.id ≠ id := by
        intro hsid
        exact hid.1 (List.mem_map.2 ⟨s, hs, by rw [hsid, ← haid]⟩)
      exact hc s (List.mem_cons_of_mem _ hs) hsid he
    · rw [if_neg ha]
      have haid : a.id ≠ id := by simpa using ha
      refine ⟨?_, ih hU.2 hid.2 (fun s hs => hc s (List.mem_cons_of_mem _ hs))⟩
      intro hmem
      obtain ⟨s, hs, he⟩ := List.mem_map.1 hmem
      obtain ⟨s0, hs0, rfl⟩ := List.mem_map.1 hs
      by_cases hs0id : s0.id == id
      · rw [if_pos hs0id] at he
        exact hc a (List.mem_cons_self _ _) haid he.symm
      · rw [if_neg hs0id] at he
        exact hU.1 (List.mem_map.2 ⟨s0, hs0, he⟩)

theorem saveExistingLead_preserves_uniq (store : List StoredLead) (id : Nat)
    (l : StoredLead) (b : Bool) (store' : List StoredLead)
    (hU : UniqStore store) (hid : (store.map (fun s => s.id)).Nodup)
    (h : saveExistingLead store id l b = .ok store') : UniqStore store' := by
  by_cases hv : (validateLeadDoc l).isEmpty
  · by_cases h1 : store.any (fun s =>
        !(s.id == id) && s.email == (applyLeadScoreHook l b).email) = true
    · simp [saveExistingLead, hv, h1] at h
    · by_cases h2 : store.any (fun s =>
          !(s.id == id) && s.phone == (applyLeadScoreHook l b).phone) = true
      · simp [saveExistingLead, hv, h1, h2] at h
      · have hc_email : ∀ s ∈ store, s.id ≠ id →
            s.email ≠ (applyLeadScoreHook l b).email := by
          intro s hs hsid he
          refine h1 (List.any_eq_true.2 ⟨s, hs, ?_⟩)
          rw [Bool.and_eq_true]
          exact ⟨by simp [hsid], by simp [he]⟩
        have hc_phone : ∀ s ∈ store, s.id ≠ id →
            s.phone ≠ (applyLeadScoreHook l b).phone := by
          intro s hs hsid hp
          refine h2 (List.any_eq_true.2 ⟨s, hs, ?_⟩)
          rw [Bool.and_eq_true]
          exact ⟨by simp [hsid], by simp [hp]⟩
        simp only [saveExistingLead, hv, Bool.not_true, if_false,
          Bool.false_eq_true, h1, h2, Except.ok.injEq] at h
        subst h
        exact ⟨replace_proj_nodup id _ _ store hU.1 hid hc_email,
          replace_proj_nodup id _ _ store hU.2 hid hc_phone⟩
  · simp [saveExistingLead, hv] at h

theorem persist_preserves_uniq (vl : List GRow) (eset : List String)
    (u : String) (uniq : List GRow) (store : List StoredLead)
    (hU : UniqStore store) :
    UniqStore (persistLeads vl eset u uniq store).2.2 := by
  induction uniq generalizing store with
  | nil => exact hU
  | cons g0 rest ih =>
    obtain ⟨gi, ld⟩ := g0
    by_cases hc : eset.contains ld.email = true
    · rw [persistLeads_cons_skip vl eset u gi ld rest store hc]
      exact ih store hU
    · have hc' : eset.contains ld.email = false := by simpa using hc
      cases hs : saveLead store (mkStoredLead ld u) with
      | ok p =>
        obtain ⟨saved, store'⟩ := p
        rw [persistLeads_cons_ok vl eset u gi ld rest store store' saved hc' hs]
        exact ih store' (saveLead_preserves_uniq store _ saved store' hU hs)
      | error er =>
        rw [persistLeads_cons_err vl eset u gi ld rest store er hc' hs]
        exact ih store hU

theorem createLead_uniq (store : List StoredLead) (inp : CreateLeadInput)
    (u : String) (hU : UniqStore store) :
    UniqStore (createLead store inp u).2 := by
  by_cases hm : (missingRequired inp).isEmpty = true
  · cases hf1 : store.find? (fun s =>
        s.email == jsTrim (jsToLower (inp.email.getD ""))) with
    | some s =>
      simp only [createLead, hm, Bool.not_true, if_false, hf1,
        Bool.false_eq_true]
      exact hU
    | none =>
      cases hf2 : store.find? (fun s =>
          s.phone == jsTrim (inp.phone.getD "")) with
      | some s =>
        simp only [createLead, hm, Bool.not_true, if_false, hf1, hf2,
          Bool.false_eq_true]
        exact hU
      | none =>
        cases hs : saveLead store (mkDocFromCreate inp u) with
        | ok p =>
          obtain ⟨saved, store'⟩ := p
          simp only [createLead, hm, Bool.not_true, if_false, hf1, hf2, hs,
            Bool.false_eq_true]
          exact saveLead_preserves_uniq store _ saved store' hU hs
        | error er =>
          cases er with
          | validation m =>
            simp only [createLead, hm, Bool.not_true, if_false, hf1, hf2,
              hs, Bool.false_eq_true]
            exact hU
          | dupKey f v =>
            simp only [createLead, hm, Bool.not_true, if_false, hf1, hf2,
              hs, Bool.false_eq_true]
            exact hU
  · have hm' : (!(missingRequired inp).isEmpty) = true := by
      simp [Bool.not_eq_true'] at hm ⊢
      exact hm
    simp only [createLead, hm', if_true]
    exact hU

theorem updateLead_uniq (store : List StoredLead) (id : Nat)
    (upd : UpdateLeadInput) (u role : String) (hU : UniqStore store)
    (hid : (store.map (fun s => s.id)).Nodup) :
    UniqStore (updateLead store id upd u role).2 := by
  cases hf : store.find? (fun s => s.id == id) with
  | none =>
    simp only [updateLead, hf]
    exact hU
  | some lead =>
    by_cases hb0 : (!(role == "admin") && !(lead.assignedTo == u)) = true
    · simp only [updateLead, hf, hb0, if_true]
      exact hU
    · have hb0' : (!(role == "admin") && !(lead.assignedTo == u)) = false := by
        simpa using hb0
      by_cases hb1 : (if truthy upd.email then
          (store.find? (fun s =>
            s.email == jsTrim (jsToLower (upd.email.getD "")) &&
              !(s.id == id))).isSome
        else false) = true
      · simp only [updateLead, hf, hb0', hb1, Bool.false_eq_true, if_false,
          if_true]
        exact hU
      · have hb1' : (if truthy upd.email then
            (store.find? (fun s =>
              s.email == jsTrim (jsToLower (upd.email.getD "")) &&
                !(s.id == id))).isSome
          else false) = false := by simpa using hb1
        by_cases hb2 : (if truthy upd.phone then
            (store.find? (fun s =>
              s.phone == jsTrim (upd.phone.getD "") && !(s.id == id))).isSome
          else false) = true
        · simp only [updateLead, hf, hb0', hb1', hb2, Bool.false_eq_true,
            if_false, if_true]
          exact hU
        · have hb2' : (if truthy upd.phone then
              (store.find? (fun s =>
                s.phone == jsTrim (upd.phone.getD "") &&
                  !(s.id == id))).isSome
            else false) = false := by simpa using hb2
          cases hs : saveExistingLead store id (applyUpdate lead upd)
              (match upd.status with
               | some v => !(v == lead.status)
               | none => false) with
          | ok store' =>
            simp only [updateLead, hf, hb0', hb1', hb2', Bool.false_eq_true,
              if_false, hs]
            exact saveExistingLead_preserves_uniq store id _ _ store' hU hid hs
          | error er =>
            cases er with
            | validation m =>
              simp only [updateLead, hf, hb0', hb1', hb2', Bool.false_eq_true,
                if_false, hs]
              exact hU
            | dupKey f v =>
              simp only [updateLead, hf, hb0', hb1', hb2', Bool.false_eq_true,
                if_false, hs]
              exact hU

theorem runImport_uniq (sheet : Sheet) (store : List StoredLead) (u : String)
    (hU : UniqStore store) : UniqStore (runImport sheet store u).finalStore :=
  persist_preserves_uniq (validLeadsOf sheet) (esetOf sheet store) u
    (uniqueOf sheet) store hU

/-- C5: every write path into the lead store — manual create, manual
update, and each per-row import insert — preserves the invariant that no
two stored leads share an email and no two share a phone; and a save that
would collide on either axis is rejected with a duplicate-key error
instead of overwriting anything. -/
theorem c5_unique_email_phone (store : List StoredLead)
    (hU : UniqStore store) (hid : (store.map (fun s => s.id)).Nodup) :
    (∀ inp u, UniqStore (createLead store inp u).2) ∧
    (∀ id upd u role, UniqStore (updateLead store id upd u role).2) ∧
    (∀ sheet u, UniqStore (runImport sheet store u).finalStore) ∧
    (∀ l, (validateLeadDoc l).isEmpty = true → hasEmail store l.email = true →
      saveLead store l = .error (.dupKey "email" l.email)) ∧
    (∀ l, (validateLeadDoc l).isEmpty = true →
      hasEmail store l.email = false → hasPhone store l.phone = true →
      saveLead store l = .error (.dupKey "phone" l.phone)) := by
  refine ⟨fun inp u => createLead_uniq store inp u hU,
    fun id upd u role => updateLead_uniq store id upd u role hU hid,
    fun sheet u => runImport_uniq sheet store u hU, ?_, ?_⟩
  · intro l hv h1
    simp [saveLead, hv, h1, hook_email]
  · intro l hv h1 h2
    simp [saveLead, hv, h1, h2, hook_email, hook_phone]

theorem c5_unique_email_phone_witness :
    UniqStore [witLead] ∧
      (List.map (fun s => s.id) [witLead]).Nodup ∧
      UniqStore (createLead [witLead] c5WitInput "u2").2 :=
  ⟨⟨by decide, by decide⟩, by decide,
    (c5_unique_email_phone [witLead] ⟨by decide, by decide⟩ (by decide)).1
      c5WitInput "u2"⟩

/-- C8: a validated, file-unique row whose normalized email already exists
in the lead store yields the duplicate-in-database error for that row, no
lead is created from that row, and the final store extends the original
store on the right — every pre-existing lead, in particular the one
holding that email, is left untouched. -/
theorem c8_db_duplicate_row (sheet : Sheet) (store : List StoredLead)
    (u : String) (g : GRow) (hg : g ∈ uniqueOf sheet)
    (he : hasEmail store g.2.email = true) :
    (g.1, (⟨findIdxEmail (validLeadsOf sheet) g.2.email + 2, "email",
        dbDupMsg g.2.email⟩ : ImportError)) ∈
      (runImport sheet store u).gErrors ∧
    isDupInDbError ⟨findIdxEmail (validLeadsOf sheet) g.2.email + 2, "email",
        dbDupMsg g.2.email⟩ = true ∧
    (∀ d : StoredLead, (g.1, d) ∉ (runImport sheet store u).gCreated) ∧
    (runImport sheet store u).finalStore =
      store ++ ((runImport sheet store u).gCreated).map (fun c => c.2) := by
  have hc : (esetOf sheet store).contains g.2.email = true := by
    rw [esetOf_contains sheet store g hg]
    exact he
  have h1 := persist_skip_mem (validLeadsOf sheet) (esetOf sheet store) u
    (uniqueOf sheet) store g hg hc
  refine ⟨?_, isDupInDb_of_msg _ _ _, ?_, ?_⟩
  · simp only [runImport]
    exact List.mem_append.2 (Or.inr h1)
  · intro d hd
    exact persist_disjoint (validLeadsOf sheet) (esetOf sheet store) u
      (uniqueOf sheet) store (uniq_ghost_nodup sheet) g.1 _ d h1
      (by simpa [runImport] using hd)
  · simpa [runImport] using persist_final_store (validLeadsOf sheet)
      (esetOf sheet store) u (uniqueOf sheet) store

theorem c8_db_duplicate_row_witness :
    c8WitGRow ∈ uniqueOf c8WitSheet ∧
      hasEmail [witLead] c8WitGRow.2.email = true ∧
      (c8WitGRow.1, (⟨findIdxEmail (validLeadsOf c8WitSheet)
          c8WitGRow.2.email + 2, "email", dbDupMsg c8WitGRow.2.email⟩ :
        ImportError)) ∈ (runImport c8WitSheet [witLead] "u1").gErrors :=
  ⟨by decide, by decide,
    (c8_db_duplicate_row c8WitSheet [witLead] "u1" c8WitGRow (by decide)
      (by decide)).1⟩

/-- C6 (amended): among validated rows sharing a normalized email, the
occurrence at the least position in the valid-lead list proceeds to
persistence, and every later occurrence is dropped from the persisted list
and instead yields a duplicate-within-file error carrying the colliding
email — but the row number it carries is the occurrence's position in the
validated-lead list plus 2, not its spreadsheet row number. -/
theorem c6_duplicate_within_file (sheet : Sheet) (store : List StoredLead)
    (u : String) (p q : Nat) (g x : GRow)
    (hp : (p, g) ∈ enumF 0 (validLeadsOf sheet))
    (hq : (q, x) ∈ enumF 0 (validLeadsOf sheet)) :
    ((∀ r y, (r, y) ∈ enumF 0 (validLeadsOf sheet) →
        y.2.email = g.2.email → p ≤ r) → g ∈ uniqueOf sheet) ∧
    (q < p → x.2.email = g.2.email →
      g ∉ uniqueOf sheet ∧
      (g.1, (⟨p + 2, "email", dupFileMsg g.2.email⟩ : ImportError)) ∈
        (runImport sheet store u).gErrors ∧
      (∀ d : StoredLead, (g.1, d) ∉ (runImport sheet store u).gCreated)) := by
  constructor
  · intro hfirst
    exact uniq_mem_of_first (validLeadsOf sheet) p g hp hfirst
  · intro hlt he
    have hnotu : g ∉ uniqueOf sheet :=
      uniq_not_mem_of_later (validLeadsOf sheet)
        (validLeadsOf_ghost_nodup sheet) p q g x hp hq hlt he
    have hdup := dupFileErrors_mem_of_later (validLeadsOf sheet) p q g x
      hp hq hlt he
    refine ⟨hnotu, ?_, ?_⟩
    · simp only [runImport]
      exact List.mem_append.2 (Or.inl (List.mem_append.2 (Or.inr hdup)))
    · intro d hd
      have hd' : (g.1, d) ∈ (persistLeads (validLeadsOf sheet)
          (esetOf sheet store) u (uniqueOf sheet) store).2.1 := by
        simpa [runImport] using hd
      have hgh := persist_created_ghost_mem (validLeadsOf sheet)
        (esetOf sheet store) u (uniqueOf sheet) store g.1 d hd'
      obtain ⟨gu, hgu, hfst⟩ := List.mem_map.1 hgh
      have hguv : gu ∈ validLeadsOf sheet :=
        (uniq_sublist (validLeadsOf sheet)).subset hgu
      have hgv : g ∈ validLeadsOf sheet := by
        have hm : g ∈ (enumF 0 (validLeadsOf sheet)).map (fun pg => pg.2) :=
          List.mem_map.2 ⟨(p, g), hp, rfl⟩
        rwa [enumF_map_snd] at hm
      have hgu1 : (g.1, gu.2) ∈ validLeadsOf sheet := by
        rw [← hfst, Prod.mk.eta]
        exact hguv
      have hg1 : (g.1, g.2) ∈ validLeadsOf sheet := by
        rw [Prod.mk.eta]
        exact hgv
      have heq : gu.2 = g.2 :=
        gls_ghost_unique (validLeadsOf sheet)
          (validLeadsOf_ghost_nodup sheet) g.1 gu.2 g.2 hgu1 hg1
      have hgu_eq : gu = g := by
        obtain ⟨a, b⟩ := gu
        obtain ⟨a', b'⟩ := g
        simp only at hfst heq
        rw [hfst, heq]
      rw [hgu_eq] at hgu
      exact hnotu hgu

theorem c6_duplicate_within_file_witness :
    (1, c6WitG) ∈ enumF 0 (validLeadsOf c6CexSheet) ∧
      (0, c6WitX) ∈ enumF 0 (validLeadsOf c6CexSheet) ∧
      0 < 1 ∧ c6WitX.2.email = c6WitG.2.email ∧
      (c6WitG ∉ uniqueOf c6CexSheet ∧
        (c6WitG.1, (⟨3, "email", dupFileMsg c6WitG.2.email⟩ : ImportError)) ∈
          (runImport c6CexSheet [] "u1").gErrors ∧
        (∀ d : StoredLead, (c6WitG.1, d) ∉
          (runImport c6CexSheet [] "u1").gCreated)) :=
  ⟨by decide, by decide, by decide, by decide,
    (c6_duplicate_within_file c6CexSheet [] "u1" 1 0 c6WitG c6WitX
      (by decide) (by decide)).2 (by decide) (by decide)⟩

/-- Every parsed row either yields a created lead or yields at least one
error, at some phase. -/
theorem import_row_outcome (sheet : Sheet) (store : List StoredLead)
    (u : String) (i : Nat) (r : ExcelLeadRow)
    (hr : (parsedRows sheet).get? i = some r) :
    (∃ d, (i, d) ∈ (runImport sheet store u).gCreated) ∨
      ∃ e, (i, e) ∈ (runImport sheet store u).gErrors := by
  simp only [runImport]
  rcases validate_cases r (i + 2) with ⟨hv, hl, -⟩ | ⟨-, -, herr⟩
  · obtain ⟨l, hl'⟩ := Option.isSome_iff_exists.1 hl
    have hgl : (i, l) ∈ validLeadsOf sheet :=
      (validateRows_valid_mem 0 (parsedRows sheet) i l).2
        ⟨i, r, hr, (Nat.zero_add i).symm, hv, hl'⟩
    obtain ⟨p, hp⟩ := (mem_iff_enumF (validLeadsOf sheet) (i, l)).1 hgl
    by_cases hu : (i, l) ∈ uniqueOf sheet
    · rcases persist_outcome (validLeadsOf sheet) (esetOf sheet store) u
        (uniqueOf sheet) store (i, l) hu with ⟨e, he⟩ | ⟨d, hd⟩
      · exact Or.inr ⟨e, List.mem_append.2 (Or.inr he)⟩
      · exact Or.inl ⟨d, hd⟩
    · have hu' : (i, l) ∉ uniqueValid (validLeadsOf sheet) := by
        simpa [uniqueOf] using hu
      have hnotfirst : ¬ ∀ q x, (q, x) ∈ enumF 0 (validLeadsOf sheet) →
          x.2.email = (i, l).2.email → p ≤ q := fun hf =>
        hu' (uniq_mem_of_first (validLeadsOf sheet) p (i, l) hp hf)
      push_neg at hnotfirst
      obtain ⟨q, x, hq, he, hlt⟩ := hnotfirst
      exact Or.inr ⟨_, List.mem_append.2 (Or.inl (List.mem_append.2 (Or.inr
        (dupFileErrors_mem_of_later (validLeadsOf sheet) p q (i, l) x
          hp hq hlt he))))⟩
  · obtain ⟨e, he⟩ := List.exists_mem_of_ne_nil _ herr
    have hge : (i, e) ∈ valErrorsOf sheet :=
      (validateRows_err_mem 0 (parsedRows sheet) i e).2
        ⟨i, r, hr, (Nat.zero_add i).symm, he⟩
    exact Or.inr ⟨e, List.mem_append.2 (Or.inl (List.mem_append.2
      (Or.inl hge)))⟩

/-- No row both yields a created lead and yields an error. -/
theorem import_row_not_both (sheet : Sheet) (store : List StoredLead)
    (u : String) (i : Nat) (d : StoredLead) (e : ImportError)
    (hd : (i, d) ∈ (runImport sheet store u).gCreated)
    (he : (i, e) ∈ (runImport sheet store u).gErrors) : False := by
  simp only [runImport] at hd he
  obtain ⟨ld, hld, -, -⟩ := persist_created_src (validLeadsOf sheet)
    (esetOf sheet store) u (uniqueOf sheet) store i d hd
  have hldv : (i, ld) ∈ validLeadsOf sheet :=
    (uniq_sublist (validLeadsOf sheet)).subset hld
  rcases List.mem_append.1 he with he1 | hpres
  · rcases List.mem_append.1 he1 with hval | hdup
    · obtain ⟨j, r, hrj, hij, herr⟩ :=
        (validateRows_err_mem 0 (parsedRows sheet) i e).1 hval
      obtain ⟨j', r', hrj', hij', hv, -⟩ :=
        (validateRows_valid_mem 0 (parsedRows sheet) i ld).1 hldv
      have hji : j = i := by omega
      have hji' : j' = i := by omega
      rw [hji] at hrj
      rw [hji'] at hrj'
      rw [hrj] at hrj'
      have hrr : r = r' := Option.some.inj hrj'
      rcases validate_cases r (i + 2) with ⟨-, -, herr2⟩ | ⟨hv2, -, -⟩
      · rw [herr2] at herr
        cases herr
      · rw [hrr] at hv2
        rw [hv] at hv2
        cases hv2
    · obtain ⟨p, l', q, y, hp, hq, hlt, hee, -⟩ :=
        dupFileErrors_src (validLeadsOf sheet) i e hdup
      have hnot : (i, l') ∉ uniqueValid (validLeadsOf sheet) :=
        uniq_not_mem_of_later (validLeadsOf sheet)
          (validLeadsOf_ghost_nodup sheet) p q (i, l') y hp hq hlt hee
      have h1 : (i, l') ∈ validLeadsOf sheet := by
        have hm : (i, l') ∈ (enumF 0 (validLeadsOf sheet)).map
            (fun pg => pg.2) := List.mem_map.2 ⟨(p, (i, l')), hp, rfl⟩
        rwa [enumF_map_snd] at hm
      have heq : l' = ld :=
        gls_ghost_unique (validLeadsOf sheet)
          (validLeadsOf_ghost_nodup sheet) i l' ld h1 hldv
      refine hnot ?_
      rw [heq]
      simpa [uniqueOf] using hld
  · exact persist_disjoint (validLeadsOf sheet) (esetOf sheet store) u
      (uniqueOf sheet) store (uniq_ghost_nodup sheet) i e d hpres hd

/-- C2 (amended): `totalRows` counts the parsed data rows that carry a
truthy name or email (a non-empty row with only, say, a phone is dropped
before counting); the report satisfies
`successfulImports + failedImports = totalRows`; and a parsed row yields a
created lead exactly when it yields no error at any phase (validation,
in-file duplicate, database duplicate, or save). -/
theorem c2_import_accounting (sheet : Sheet) (store : List StoredLead)
    (u : String) :
    (importReport sheet store u).totalRows = (parsedRows sheet).length ∧
    (importReport sheet store u).successfulImports +
        (importReport sheet store u).failedImports =
      (importReport sheet store u).totalRows ∧
    ∀ i r, (parsedRows sheet).get? i = some r →
      ((∃ d, (i, d) ∈ (runImport sheet store u).gCreated) ↔
        ¬ ∃ e, (i, e) ∈ (runImport sheet store u).gErrors) := by
  have h1 := persist_created_length_le (validLeadsOf sheet)
    (esetOf sheet store) u (uniqueOf sheet) store
  have h2 : (uniqueOf sheet).length ≤ (validLeadsOf sheet).length :=
    (uniq_sublist (validLeadsOf sheet)).length_le
  have h3 : (validLeadsOf sheet).length ≤ (parsedRows sheet).length :=
    validateRows_length_le 0 (parsedRows sheet)
  have hcr : (runImport sheet store u).gCreated =
      (persistLeads (validLeadsOf sheet) (esetOf sheet store) u
        (uniqueOf sheet) store).2.1 := rfl
  have hle : (runImport sheet store u).gCreated.length ≤
      (parsedRows sheet).length := by
    rw [hcr]
    omega
  have htot : (runImport sheet store u).totalRows =
      (parsedRows sheet).length := rfl
  refine ⟨rfl, ?_, ?_⟩
  · simp only [importReport]
    omega
  · intro i r hr
    constructor
    · rintro ⟨d, hd⟩ ⟨e, he⟩
      exact import_row_not_both sheet store u i d e hd he
    · intro hne
      rcases import_row_outcome sheet store u i r hr with h | h
      · exact h
      · exact absurd h hne

theorem c2_import_accounting_witness :
    (parsedRows c7WitSheet).get? 0 = some c2WitRow ∧
      ((∃ d, (0, d) ∈ (runImport c7WitSheet [] "u1").gCreated) ↔
        ¬ ∃ e, (0, e) ∈ (runImport c7WitSheet [] "u1").gErrors) :=
  ⟨by decide,
    (c2_import_accounting c7WitSheet [] "u1").2.2 0 c2WitRow (by decide)⟩

/-- C7 (amended): after a first import in which every parsed row was
created, re-importing the same file yields zero successful imports,
`failedImports = totalRows`, and the error list is exactly one
duplicate-in-database error per (file-unique, here: every) valid row; the
hypothesis that the first pass created every row is necessary, since rows
that failed validation the first time fail validation again rather than
colliding with the database. -/
theorem c7_reimport_all_db_duplicates (sheet : Sheet)
    (store : List StoredLead) (u u' : String)
    (hall : (runImport sheet store u).gCreated.length =
      (parsedRows sheet).length) :
    (importReport sheet ((runImport sheet store u).finalStore)
        u').successfulImports = 0 ∧
    (importReport sheet ((runImport sheet store u).finalStore)
        u').failedImports =
      (importReport sheet ((runImport sheet store u).finalStore)
        u').totalRows ∧
    (runImport sheet ((runImport sheet store u).finalStore) u').gErrors =
      (uniqueOf sheet).map (fun g =>
        (g.1, ⟨findIdxEmail (validLeadsOf sheet) g.2.email + 2, "email",
          dbDupMsg g.2.email⟩)) ∧
    (uniqueOf sheet).length = (parsedRows sheet).length ∧
    ∀ ge ∈ (runImport sheet ((runImport sheet store u).finalStore)
        u').gErrors, isDupInDbError ge.2 = true := by
  have h1 := persist_created_length_le (validLeadsOf sheet)
    (esetOf sheet store) u (uniqueOf sheet) store
  have h2 : (uniqueOf sheet).length ≤ (validLeadsOf sheet).length :=
    (uniq_sublist (validLeadsOf sheet)).length_le
  have h3 : (validLeadsOf sheet).length ≤ (parsedRows sheet).length :=
    validateRows_length_le 0 (parsedRows sheet)
  have hcr : (runImport sheet store u).gCreated =
      (persistLeads (validLeadsOf sheet) (esetOf sheet store) u
        (uniqueOf sheet) store).2.1 := rfl
  rw [hcr] at hall
  have hlu : (persistLeads (validLeadsOf sheet) (esetOf sheet store) u
      (uniqueOf sheet) store).2.1.length = (uniqueOf sheet).length := by
    omega
  have hug : (uniqueOf sheet).length = (validLeadsOf sheet).length := by
    omega
  have hgr : (validLeadsOf sheet).length = (parsedRows sheet).length := by
    omega
  have huniq := uniq_all_of_length (validLeadsOf sheet) hug
  have hval0 : valErrorsOf sheet = [] :=
    validateRows_all_valid_of_length 0 (parsedRows sheet) hgr
  have hcreated := persist_all_created_of_length (validLeadsOf sheet)
    (esetOf sheet store) u (uniqueOf sheet) store hlu
  have hfinal : (runImport sheet store u).finalStore =
      store ++ ((persistLeads (validLeadsOf sheet) (esetOf sheet store) u
        (uniqueOf sheet) store).2.1).map (fun c => c.2) :=
    persist_final_store (validLeadsOf sheet) (esetOf sheet store) u
      (uniqueOf sheet) store
  have hskipcond : ∀ g ∈ uniqueOf sheet,
      (esetOf sheet ((runImport sheet store u).finalStore)).contains
        g.2.email = true := by
    intro g hg
    rw [esetOf_contains sheet _ g hg]
    obtain ⟨d, hd, hde⟩ := hcreated g hg
    have hdm : d ∈ (runImport sheet store u).finalStore := by
      rw [hfinal]
      exact List.mem_append.2 (Or.inr (List.mem_map.2 ⟨(g.1, d), hd, rfl⟩))
    rw [hasEmail_iff]
    refine List.mem_map.2 ⟨d, hdm, ?_⟩
    rw [hde, mk_email_of_valid sheet g ((uniq_sublist _).subset hg) u]
  have hskip := persist_skip_all (validLeadsOf sheet)
    (esetOf sheet ((runImport sheet store u).finalStore)) u'
    (uniqueOf sheet) ((runImport sheet store u).finalStore) hskipcond
  have hgcre : (runImport sheet ((runImport sheet store u).finalStore)
      u').gCreated = [] := by
    show (persistLeads (validLeadsOf sheet)
      (esetOf sheet ((runImport sheet store u).finalStore)) u'
      (uniqueOf sheet) ((runImport sheet store u).finalStore)).2.1 = []
    rw [hskip]
  have hgerr : (runImport sheet ((runImport sheet store u).finalStore)
      u').gErrors = (uniqueOf sheet).map (fun g =>
        (g.1, ⟨findIdxEmail (validLeadsOf sheet) g.2.email + 2, "email",
          dbDupMsg g.2.email⟩)) := by
    show valErrorsOf sheet ++ dupFileErrors (validLeadsOf sheet) ++
      (persistLeads (validLeadsOf sheet)
        (esetOf sheet ((runImport sheet store u).finalStore)) u'
        (uniqueOf sheet) ((runImport sheet store u).finalStore)).1 = _
    rw [hval0, huniq.2, hskip]
    rfl
  refine ⟨?_, ?_, hgerr, by omega, ?_⟩
  · show ((runImport sheet ((runImport sheet store u).finalStore)
      u').gCreated).length = 0
    rw [hgcre]
    rfl
  · show (runImport sheet ((runImport sheet store u).finalStore)
        u').totalRows -
      ((runImport sheet ((runImport sheet store u).finalStore)
        u').gCreated).length =
      (runImport sheet ((runImport sheet store u).finalStore) u').totalRows
    rw [hgcre]
    rfl
  · intro ge hge
    rw [hgerr] at hge
    obtain ⟨g, -, rfl⟩ := List.mem_map.1 hge
    exact isDupInDb_of_msg _ _ _

theorem c7_reimport_all_db_duplicates_witness :
    (runImport c7WitSheet [] "u1").gCreated.length =
        (parsedRows c7WitSheet).length ∧
      (importReport c7WitSheet ((runImport c7WitSheet [] "u1").finalStore)
        "u2").successfulImports = 0 :=
  ⟨by decide,
    (c7_reimport_all_db_duplicates c7WitSheet [] "u1" "u2" (by decide)).1⟩

end LeadMgmt
